import Mathlib

/-!
# Verification of the clinics-map pipeline

Shallow embedding of the clinics-map repository (CSV normalization,
three-provider geocoding reconciliation, dataset build) and proofs of the
specification claims about it.

Modelling conventions:
* Python floats are modelled as rationals (`ℚ`); the pipeline never performs
  float arithmetic — coordinates are only parsed, stored, and compared with
  the bounding-box constants, all of which are exact decimals.
* A provider attempt entry in the persisted JSON is either absent, `[]`, or
  `[lat, lon]`; it is modelled as `Option (List ℚ)` (`none` = key absent,
  `some l` = key present holding list `l`).  The scripts only ever write
  lists under the provider keys, so list-valued entries suffice (the
  `isinstance(..., list)` guards in the source are vacuously true here).
* The network is modelled as an oracle `String → Option (ℚ × ℚ)` mapping the
  query string `"{name}, {address}"` to the parsed geocoding response
  (`none` = error / non-200 / empty response).
* File persistence: each script loads the state file, mutates the in-memory
  list, and unconditionally saves it at the end; intermediate checkpoints
  rewrite the same file, so the persisted state after a run equals the final
  in-memory list, which is what the run functions below return.
-/

/-! ## Data model: records of the reconciliation state file -/

/-- A record of the reconciliation state (stage-1 output plus the three
provider attempt keys `locationiq`, `opencage`, `google`). -/
structure Clinic where
  id : Int
  name : String
  address : String
  phone : String
  locationiq : Option (List ℚ) := none
  opencage : Option (List ℚ) := none
  google : Option (List ℚ) := none
  deriving DecidableEq, Repr

/-- The three geocoding providers. -/
inductive Provider where
  | locationiq
  | opencage
  | google
  deriving DecidableEq, Repr

/-- The attempt entry stored for provider `p` in a record. -/
def getAtt : Provider → Clinic → Option (List ℚ)
  | .locationiq, c => c.locationiq
  | .opencage, c => c.opencage
  | .google, c => c.google

/-- Write the list `v` under provider `p`'s key (e.g. `clinic["opencage"] = v`). -/
def setAtt : Provider → List ℚ → Clinic → Clinic
  | .locationiq, v, c => { c with locationiq := some v }
  | .opencage, v, c => { c with opencage := some v }
  | .google, v, c => { c with google := some v }

/-- `is_valid_uae_coordinates` (identical in all three geocoding scripts):
`22.5 <= lat <= 26.5 and 52.0 <= lng <= 57.0`. -/
def is_valid_uae_coordinates (lat lng : ℚ) : Bool :=
  (22.5 ≤ lat && lat ≤ 26.5) && (52.0 ≤ lng && lng ≤ 57.0)

/-- The geocoding query string, `f"{clinic['name']}, {clinic['address']}"`. -/
def query (c : Clinic) : String :=
  c.name ++ ", " ++ c.address

/-! ## The per-provider reconciliation pass

All three scripts (`2_1_geolocate_locationiq.py`, `2_2_geolocate_opencage.py`,
`2_3_geolocate_google.py`) share the same `main` skeleton; they differ in
(a) which key they initialize at fresh start / merge, (b) which key they
revalidate, (c) the eligibility test of the processing loop, and (d) where
the locationiq loop writes `clinic["locationiq"] = []` before the
max-requests check.  The skeleton is embedded once, parametrized by the
provider. -/

/-- `should_geocode` of `2_2_geolocate_opencage.py`: locationiq key present,
holding a list, which is empty, and opencage key absent.  (The
`isinstance(..., list)` test is vacuous in this model.) -/
def should_geocode_opencage (c : Clinic) : Bool :=
  match c.locationiq with
  | none => false
  | some l => l.isEmpty && c.opencage.isNone

/-- `should_geocode` of `2_3_geolocate_google.py`: despite its docstring, it
only tests that the google key is absent. -/
def should_geocode_google (c : Clinic) : Bool :=
  c.google.isNone

/-- Loop eligibility for one record.  For the locationiq script this is the
skip test at the top of its loop (process iff the `locationiq` key is
absent); for the fallback scripts it is their `should_geocode`. -/
def elig : Provider → Clinic → Bool
  | .locationiq, c => c.locationiq.isNone
  | .opencage, c => should_geocode_opencage c
  | .google, c => should_geocode_google c

/-- The locationiq loop executes `clinic["locationiq"] = []` on an eligible
record before checking the request cap; the fallback loops do not touch an
eligible record before the cap check. -/
def preMark : Provider → Clinic → Clinic
  | .locationiq, c => { c with locationiq := some [] }
  | .opencage, c => c
  | .google, c => c

/-- `max_requests is not None and total_requests >= max_requests`. -/
def capReached : Option Nat → Nat → Bool
  | none, _ => false
  | some k, n => k ≤ n

/-- Store one geocoding response: an in-bounds pair is stored as the pair,
anything else (out-of-bounds pair, error, non-response) is stored as `[]`. -/
def geoStep (p : Provider) (c : Clinic) (res : Option (ℚ × ℚ)) : Clinic :=
  match res with
  | some (lat, lng) =>
      if is_valid_uae_coordinates lat lng then setAtt p [lat, lng] c
      else setAtt p [] c
  | none => setAtt p [] c

/-- The processing loop of a provider script over the located list, carrying
the running request count.  Each output record is paired with a ghost flag
recording whether a geocoding lookup was issued for it in this run.  When the
request cap is reached the loop breaks, leaving the remaining records
untouched (for locationiq, the record at which the break occurs has already
been marked `[]` by `preMark`). -/
def passLoop (p : Provider) (cap : Option Nat) (oracle : String → Option (ℚ × ℚ)) :
    List Clinic → Nat → List (Clinic × Bool) × Nat
  | [], n => ([], n)
  | c :: rest, n =>
    if elig p c then
      let c0 := preMark p c
      if capReached cap n then
        ((c0, false) :: rest.map (fun x => (x, false)), n)
      else
        let out := passLoop p cap oracle rest (n + 1)
        ((geoStep p c0 (oracle (query c)), true) :: out.1, out.2)
    else
      let out := passLoop p cap oracle rest n
      ((c, false) :: out.1, out.2)

/-- Initialization of a record taken from the input file: the locationiq
script sets `clinic["locationiq"] = []` unconditionally (both at fresh start
and at merge); the fallback scripts set it only when the key is absent. -/
def initClinic : Provider → Clinic → Clinic
  | .locationiq, c => { c with locationiq := some [] }
  | _, c => if c.locationiq.isNone then { c with locationiq := some [] } else c

/-- Does the located list contain a record with this id? -/
def hasId (s : List Clinic) (i : Int) : Bool :=
  s.any (fun c => c.id = i)

/-- Merge step: every input record whose id is not yet in the located list is
appended (initialized).  Record ids are unique by the data model, so folding
over the input list coincides with the source's iteration over
`input_dict.items()`. -/
def mergeStep (p : Provider) (input state : List Clinic) : List Clinic :=
  input.foldl (fun acc c => if hasId acc c.id then acc else acc ++ [initClinic p c]) state

/-- Revalidation of one record: an existing two-element entry under this
provider's key that fails the bounding box is reset to `[]`. -/
def revalOne (p : Provider) (c : Clinic) : Clinic :=
  match getAtt p c with
  | some [lat, lng] =>
      if is_valid_uae_coordinates lat lng then c else setAtt p [] c
  | _ => c

/-- Revalidation step over the whole located list. -/
def revalidate (p : Provider) (s : List Clinic) : List Clinic :=
  s.map (revalOne p)

/-- One full provider pass (`main` of the provider's script), instrumented:
returns the final located list (with the ghost lookup flags) and the total
number of geocoding requests issued.  `state` is the content of the state
file (`[]` when the file is absent or empty, which the scripts treat
alike). -/
def runPassI (p : Provider) (cap : Option Nat) (oracle : String → Option (ℚ × ℚ))
    (input state : List Clinic) : List (Clinic × Bool) × Nat :=
  if state.isEmpty then
    passLoop p cap oracle (input.map (initClinic p)) 0
  else
    passLoop p cap oracle (revalidate p (mergeStep p input state)) 0

/-- One full provider pass: the persisted state after the run and the number
of requests issued. -/
def runPass (p : Provider) (cap : Option Nat) (oracle : String → Option (ℚ × ℚ))
    (input state : List Clinic) : List Clinic × Nat :=
  ((runPassI p cap oracle input state).1.map Prod.fst, (runPassI p cap oracle input state).2)

/-- The list the processing loop runs over: fresh-initialized input when the
state file is absent/empty, otherwise the merged and revalidated state. -/
def loopInput (p : Provider) (input state : List Clinic) : List Clinic :=
  if state.isEmpty then input.map (initClinic p)
  else revalidate p (mergeStep p input state)

/-- Fixture for the C1 witness: a normalized input record. -/
def clinicA : Clinic := { id := 1, name := "Clinic A", address := "Somewhere", phone := "" }

/-- Fixture for the C1 witness: a provider that always answers with New York
coordinates, which are outside the UAE bounding box. -/
def badOracle : String → Option (ℚ × ℚ) := fun _ => some (40.7, -74.0)

/-- Fixture for the C1 witness: the state persisted by an uncapped google
pass over `[clinicA]` from an absent state file, against `badOracle`. -/
def stateC1 : List Clinic := (runPass Provider.google none badOracle [clinicA] []).1

/-- Fixture for the C3 witness: a normalized input record. -/
def clinicC3 : Clinic := { id := 2, name := "Clinic C", address := "Addr", phone := "" }

/-- Fixture for the C3 witness: a provider that always answers with
coordinates inside the UAE bounding box. -/
def oracleC3 : String → Option (ℚ × ℚ) := fun _ => some (24, 54)

/-- Fixture for the C2 evaluation: a record whose locationiq attempt holds a
valid coordinate pair and that has never been attempted by google. -/
def clinicC2 : Clinic :=
  { id := 3, name := "Clinic B", address := "Addr B", phone := ""
    locationiq := some [24.1, 54.3] }

/-- Fixture for the C7 counterexample: a normalized input record. -/
def clinicC7 : Clinic := { id := 4, name := "Clinic D", address := "Addr D", phone := "" }

/-- Fixture for the C7 witness: a state record whose locationiq and
opencage attempts were both already made (and failed). -/
def clinicC7w : Clinic :=
  { id := 5, name := "Clinic E", address := "Addr E", phone := ""
    locationiq := some [], opencage := some [] }

/-! ## Dataset build (`3_build_clinics.py`)

Regex modelling: the builder only uses `\s` (whitespace class), `\b` (word
boundary) and the tail pattern `\s*\([^)]+\)\s*$`.  Whitespace and word
characters are modelled over their ASCII ranges (all patterns and keywords in
the source are ASCII). -/

/-- Python regex `\s` (ASCII range). -/
def isWS (c : Char) : Bool :=
  c = ' ' || c = '\t' || c = '\n' || c = '\r' || c = '\x0b' || c = '\x0c'

/-- Python regex `\w` (ASCII range). -/
def isWordChar (c : Char) : Bool :=
  c.isAlphanum || c = '_'

/-- Remove trailing whitespace. -/
def dropTrailingWS (s : List Char) : List Char :=
  (s.reverse.dropWhile isWS).reverse

/-- Scan for a whole-word occurrence (`\b w \b`) of the keyword `w` (which
starts and ends with word characters), carrying whether the previous
character was a word character. -/
def containsWordAux (w : List Char) : Bool → List Char → Bool
  | _, [] => false
  | prev, c :: rest =>
    (!prev && w.isPrefixOf (c :: rest) &&
      (match (c :: rest).drop w.length with
       | [] => true
       | d :: _ => !isWordChar d)) ||
    containsWordAux w (isWordChar c) rest

/-- `re.search(r'\b<w>\b', s)` for a keyword `w` of word characters (possibly
with an internal space, as in `medical center`). -/
def containsWord (w : String) (s : List Char) : Bool :=
  containsWordAux w.toList false s

/-- `extract_tags`: keyword-driven tags from the original clinic name.
Mirrors the source's append order (pharmacy, hospital, clinic, optical,
dental, lab); pharmacy suppresses hospital and clinic. -/
def extract_tags (name : String) : Option (List String) :=
  if name = "" then none
  else
    let nl := name.toList.map Char.toLower
    let has_pharmacy := containsWord "pharmacy" nl
    let t1 : List String := if has_pharmacy then ["pharmacy"] else []
    let t2 := if !has_pharmacy && (containsWord "hospital" nl || containsWord "hospitals" nl)
      then t1 ++ ["hospital"] else t1
    let t3 := if !has_pharmacy && (containsWord "clinic" nl || containsWord "clinics" nl ||
        containsWord "polyclinic" nl || containsWord "medical center" nl ||
        containsWord "medical centre" nl)
      then t2 ++ ["clinic"] else t2
    let t4 := if containsWord "optical" nl || containsWord "optics" nl || containsWord "eye" nl
      then t3 ++ ["optical"] else t3
    let t5 := if containsWord "dental" nl then t4 ++ ["dental"] else t4
    let t6 := if containsWord "laboratory" nl || containsWord "laboratories" nl ||
        containsWord "diagnostic" nl || containsWord "diagnostics" nl || containsWord "lab" nl
      then t5 ++ ["lab"] else t5
    if t6 = [] then none else some t6

/-- Position of the opening parenthesis of a match of `\([^)]+\)` whose
closing parenthesis is the end of `u`: the first `'('` followed by a
nonempty `')'`-free remainder. -/
def findParenAux : List Char → Option Nat
  | [] => none
  | c :: rest =>
    if c = '(' && !rest.isEmpty && !rest.contains ')' then some 0
    else (findParenAux rest).map (· + 1)

/-- `clean_name`: `re.sub(r'\s*\([^)]+\)\s*$', '', name)` — remove a
trailing parenthetical (with surrounding whitespace).  The matched closing
parenthesis is the last non-whitespace character; the matched opening
parenthesis is the first one whose content runs parenthesis-free to it. -/
def clean_name (name : String) : String :=
  let s := name.toList
  let t := dropTrailingWS s
  if t.getLast? = some ')' then
    match findParenAux t.dropLast with
    | some i => String.mk (dropTrailingWS (t.dropLast.take i))
    | none => name
  else name

/-- One provider entry viewed as a selectable coordinate pair: the source
returns `(loc[0], loc[1])` iff the key is present, truthy, a list, and of
length two — i.e. iff the entry is a two-element list. -/
def coordOf : Option (List ℚ) → Option (ℚ × ℚ)
  | some (a :: b :: []) => some (a, b)
  | _ => none

/-- `get_coordinates`: provider priority locationiq, then google, then
opencage. -/
def get_coordinates (r : Clinic) : Option (ℚ × ℚ) :=
  match coordOf r.locationiq with
  | some pr => some pr
  | none =>
    match coordOf r.google with
    | some pr => some pr
    | none => coordOf r.opencage

/-- `build_address`: append the phone after a comma unless it is empty. -/
def build_address (address phone : String) : String :=
  if phone ≠ "" then address ++ ", " ++ phone else address

/-- An output record of the dataset build (`tags = none` models the absent
`tags` key). -/
structure OutClinic where
  name : String
  address : String
  lat : ℚ
  lon : ℚ
  tags : Option (List String)
  deriving DecidableEq, Repr

/-- `process_record`: build one output record, or `none` (dropped) when no
provider entry holds a coordinate pair. -/
def process_record (r : Clinic) : Option OutClinic :=
  match get_coordinates r with
  | none => none
  | some (lat, lon) =>
    some { name := clean_name r.name, address := build_address r.address r.phone,
           lat := lat, lon := lon, tags := extract_tags r.name }

/-- Build a record from explicit field values (used to state claims about
the dataset builder). -/
def mkClinic (i : Int) (name address phone : String) (l o g : Option (List ℚ)) : Clinic :=
  { id := i, name := name, address := address, phone := phone,
    locationiq := l, opencage := o, google := g }

/-! ## Phone normalization (`1_convert_csv_to_json.py`, lines 51-139, 380-413)

`normalize_single_phone` can raise an `IndexError` (accessing
`digits_only[3]` when the digit string is exactly `"971"`); that exception is
modelled as `Except.error ()` and propagates through the field-level
normalizer exactly as an uncaught Python exception would. -/

/-- Python `str.strip()` (ASCII whitespace). -/
def pstrip (s : List Char) : List Char :=
  ((s.dropWhile isWS).reverse.dropWhile isWS).reverse

/-- Subscriber-length validation and formatting (lines 126-139): area codes
2 and 4 take 7-8 subscriber digits, area code 5 takes 8-9, anything else is
rejected; the canonical form is `"+971 " + areaCode + rest`. -/
def validate_and_format (a : Char) (rest : List Char) : Option String :=
  if a = '2' || a = '4' then
    if 7 ≤ rest.length && rest.length ≤ 8 then some ("+971 " ++ String.mk (a :: rest))
    else none
  else if a = '5' then
    if 8 ≤ rest.length && rest.length ≤ 9 then some ("+971 " ++ String.mk (a :: rest))
    else none
  else none

/-- `normalize_single_phone(phone, inferred_area_code)`.  `Except.error ()`
is the `IndexError` raised when the cleaned digit string is exactly `"971"`
(or, in the dead `"00971"` branch, exactly `"00971"`). -/
def normalize_single_phone (phone : String) (inferred : Option Char) :
    Except Unit (Option String) :=
  let p := pstrip phone.toList
  if p.isEmpty then Except.ok none
  else
    let d0 := p.filter (fun c => c.isDigit || c = '+')
    let d1 := match d0 with
      | '+' :: t => t
      | t => t
    let d := d1.dropWhile (fun c => c = '0')
    if d.isEmpty then Except.ok none
    else
      if d.take 3 = ['9', '7', '1'] then
        match d.drop 3 with
        | [] => Except.error ()
        | a :: r => Except.ok (validate_and_format a r)
      else if d.take 5 = ['0', '0', '9', '7', '1'] then
        -- dead branch: leading zeros were already stripped; kept for fidelity
        match d.drop 5 with
        | [] => Except.error ()
        | a :: r => Except.ok (validate_and_format a r)
      else if 2 ≤ d.length && d.headD ' ' = '0' &&
          (d.getD 1 ' ' = '2' || d.getD 1 ' ' = '4' || d.getD 1 ' ' = '5') then
        -- dead branch for the same reason
        Except.ok (validate_and_format (d.getD 1 ' ') (d.drop 2))
      else if d.headD ' ' = '2' || d.headD ' ' = '4' || d.headD ' ' = '5' then
        Except.ok (validate_and_format (d.headD ' ') (d.drop 1))
      else if 7 ≤ d.length then
        if inferred.isSome && d.length = 7 then
          Except.ok (validate_and_format (inferred.getD ' ') d)
        else if 8 ≤ d.length &&
            (d.headD ' ' = '2' || d.headD ' ' = '4' || d.headD ' ' = '5') then
          Except.ok (validate_and_format (d.headD ' ') (d.drop 1))
        else if d.length = 7 && d.headD ' ' = '4' then
          Except.ok (validate_and_format (inferred.getD '2') d)
        else Except.ok none
      else Except.ok none

/-- `re.split(r'[/,;]', s)`: split at every separator, keeping empty pieces. -/
def splitSeps : List Char → List (List Char)
  | [] => [[]]
  | c :: rest =>
    if c = '/' || c = ',' || c = ';' then [] :: splitSeps rest
    else
      match splitSeps rest with
      | g :: gs => (c :: g) :: gs
      | [] => [[c]]

/-- The candidate numbers of a raw phone field:
`[p.strip() for p in re.split(r'[/,;]', phone_str) if p.strip()]`. -/
def splitPhones (s : String) : List String :=
  ((splitSeps s.toList).map (fun p => String.mk (pstrip p))).filter (fun p => p ≠ "")

/-- `re.search(r'\+971 ([245])\d+', n)`: scan for the literal `"+971 "`
followed by an area digit in {2,4,5} and at least one digit; return the area
digit. -/
def inferredScan : List Char → Option Char
  | [] => none
  | c :: rest =>
    match c :: rest with
    | '+' :: '9' :: '7' :: '1' :: ' ' :: a :: r :: _ =>
      if (a = '2' || a = '4' || a = '5') && r.isDigit then some a
      else inferredScan rest
    | _ => inferredScan rest

/-- First pass of `normalize_phone`: normalize each candidate without
inference, accumulating the normalized numbers, the processed raw
candidates, and the inferred area code (overwritten at each success). -/
def firstPass : List String → List String → List String → Option Char →
    Except Unit (List String × List String × Option Char)
  | [], ns, ps, inf => Except.ok (ns, ps, inf)
  | p :: rest, ns, ps, inf =>
    match normalize_single_phone p none with
    | Except.error e => Except.error e
    | Except.ok none => firstPass rest ns ps inf
    | Except.ok (some n) =>
      firstPass rest (ns ++ [n]) (ps ++ [p])
        (match inferredScan n.toList with
         | some a => some a
         | none => inf)

/-- Second pass of `normalize_phone`: retry candidates that were not
processed in the first pass, with the inferred area code, appending only
numbers not already produced. -/
def secondPass (inf : Char) : List String → List String → List String →
    Except Unit (List String)
  | [], ns, _ => Except.ok ns
  | p :: rest, ns, ps =>
    if p ∈ ps then secondPass inf rest ns ps
    else
      match normalize_single_phone p (some inf) with
      | Except.error e => Except.error e
      | Except.ok (some n) =>
        if n ∉ ns then secondPass inf rest (ns ++ [n]) (ps ++ [p])
        else secondPass inf rest ns ps
      | Except.ok none => secondPass inf rest ns ps

/-- The list of canonical numbers produced by `normalize_phone` for a field
(before joining). -/
def phoneListOf (s : String) : Except Unit (List String) :=
  match firstPass (splitPhones s) [] [] none with
  | Except.error e => Except.error e
  | Except.ok (ns, ps, inf) =>
    match inf with
    | none => Except.ok ns
    | some a => secondPass a (splitPhones s) ns ps

/-- `normalize_phone(phone_str)`: the comma-joined canonical numbers, `""`
when none succeeded or the field is empty. -/
def normalize_phone (s : String) : Except Unit String :=
  if s = "" then Except.ok ""
  else
    match phoneListOf s with
    | Except.error e => Except.error e
    | Except.ok ns => Except.ok (if ns.isEmpty then "" else String.intercalate ", " ns)

/-- Decidable equality of `Except` results (for concrete evaluations). -/
instance exceptDecEq {ε α : Type} [DecidableEq ε] [DecidableEq α] : DecidableEq (Except ε α)
  | Except.ok x, Except.ok y =>
    if h : x = y then Decidable.isTrue (by rw [h])
    else Decidable.isFalse (by intro hc; injection hc with hv; exact h hv)
  | Except.ok _, Except.error _ => Decidable.isFalse (fun hc => Except.noConfusion hc)
  | Except.error _, Except.ok _ => Decidable.isFalse (fun hc => Except.noConfusion hc)
  | Except.error e, Except.error f =>
    if h : e = f then Decidable.isTrue (by rw [h])
    else Decidable.isFalse (by intro hc; injection hc with hv; exact h hv)

/-! ## Text cleaning (`clean_text`, `1_convert_csv_to_json.py` lines 14-48)

Each `re.sub` of the source is modelled as a dedicated scanner with Python's
leftmost, non-overlapping, greedy match semantics.  The scanners that can
consume more than one character per step take a fuel argument (any fuel at
least the list length is enough; `clean_text` passes `length + 1`). -/

/-- Rule 1: `re.sub(r'[�￾￿]', '', text)`.  (The preceding
`text.replace('', '')` of the source is a Python no-op.) -/
def removeInvalid (s : List Char) : List Char :=
  s.filter (fun c => !(c = '�' || c = '￾' || c = '￿'))

/-- Case-insensitive prefix test against an uppercase pattern. -/
def prefixCI : List Char → List Char → Bool
  | [], _ => true
  | _ :: _, [] => false
  | a :: ps, c :: cs => (c.toUpper = a) && prefixCI ps cs

/-- Rule 2: `re.sub(r'\bABUDHABI\b', 'ABU DHABI', text, flags=IGNORECASE)`.
`prev` records whether the previous character is a word character (for the
left boundary); the right boundary requires the following character to be
absent or a non-word character. -/
def abudhabiFix (fuel : Nat) (prev : Bool) (s : List Char) : List Char :=
  match fuel, s with
  | _, [] => []
  | 0, rest => rest
  | f + 1, c :: rest =>
    if !prev && prefixCI "ABUDHABI".toList (c :: rest) &&
        (match (c :: rest).drop 8 with
         | [] => true
         | d :: _ => !isWordChar d) then
      "ABU DHABI".toList ++ abudhabiFix f true ((c :: rest).drop 8)
    else
      c :: abudhabiFix f (isWordChar c) rest

/-- Rule 3: `re.sub(r'\s+,', ',', text)` — each maximal whitespace run
immediately preceding a comma is deleted. -/
def fixSpaceComma (s : List Char) : List Char :=
  s.foldr
    (fun c acc =>
      if isWS c then
        match acc with
        | ',' :: _ => acc
        | _ => c :: acc
      else c :: acc) []

/-- Rule 4: `re.sub(r',([^\s])', r', \1', text)` — insert a space after a
comma followed by a non-whitespace character; the matched character is
consumed (matches do not overlap). -/
def fixCommaSpace : List Char → List Char
  | [] => []
  | [c] => [c]
  | ',' :: c :: rest =>
    if !isWS c then ',' :: ' ' :: c :: fixCommaSpace rest
    else ',' :: fixCommaSpace (c :: rest)
  | c :: rest => c :: fixCommaSpace rest

/-- Rule 5: `re.sub(r'([^\s(])\s*\(', r'\1 (', text)` — a non-space
non-parenthesis character, optional whitespace, then `'('` becomes the
character, one space, `'('`. -/
def fixBeforeParen (fuel : Nat) (s : List Char) : List Char :=
  match fuel, s with
  | _, [] => []
  | 0, rest => rest
  | f + 1, c :: rest =>
    if !isWS c && c ≠ '(' then
      match rest.dropWhile isWS with
      | '(' :: tl => c :: ' ' :: '(' :: fixBeforeParen f tl
      | _ => c :: fixBeforeParen f rest
    else c :: fixBeforeParen f rest

/-- Rule 6: `re.sub(r'\(\s+', '(', text)` — delete whitespace immediately
following an opening parenthesis. -/
def fixAfterParen (fuel : Nat) (s : List Char) : List Char :=
  match fuel, s with
  | _, [] => []
  | 0, rest => rest
  | f + 1, '(' :: rest =>
    if (match rest with
        | d :: _ => isWS d
        | [] => false) then
      '(' :: fixAfterParen f (rest.dropWhile isWS)
    else '(' :: fixAfterParen f rest
  | f + 1, c :: rest => c :: fixAfterParen f rest

/-- Rule 7: `re.sub(r'\s+\)', ')', text)` — each maximal whitespace run
immediately preceding a closing parenthesis is deleted. -/
def fixSpaceClose (s : List Char) : List Char :=
  s.foldr
    (fun c acc =>
      if isWS c then
        match acc with
        | ')' :: _ => acc
        | _ => c :: acc
      else c :: acc) []

/-- Rule 8: `re.sub(r'\s*-\s*$', '', text)` — when the last non-whitespace
character is a dash, remove it together with the surrounding trailing
whitespace; otherwise leave the string unchanged. -/
def stripTrailingDash (s : List Char) : List Char :=
  let t := dropTrailingWS s
  if t.getLast? = some '-' then dropTrailingWS t.dropLast else s

/-- Rule 9: `re.sub(r'[,\s]+$', '', text)` — strip the trailing run of
commas and whitespace. -/
def stripTrailingCommaWS (s : List Char) : List Char :=
  (s.reverse.dropWhile (fun c => c = ',' || isWS c)).reverse

/-- Rule 10: `re.sub(r'\s+', ' ', text)` — collapse every whitespace run to
a single space. -/
def collapseWS (s : List Char) : List Char :=
  s.foldr
    (fun c acc =>
      if isWS c then
        match acc with
        | ' ' :: _ => acc
        | _ => ' ' :: acc
      else c :: acc) []

/-- `clean_text`: the source's rule chain in order (empty input short-circuits
to `""`; the final step is `str.strip()`). -/
def clean_text (text : String) : String :=
  if text = "" then ""
  else
    let s1 := removeInvalid text.toList
    let s2 := abudhabiFix (s1.length + 1) false s1
    let s3 := fixSpaceComma s2
    let s4 := fixCommaSpace s3
    let s5 := fixBeforeParen (s4.length + 1) s4
    let s6 := fixAfterParen (s5.length + 1) s5
    let s7 := fixSpaceClose s6
    let s8 := stripTrailingDash s7
    let s9 := stripTrailingCommaWS s8
    let s10 := collapseWS s9
    String.mk (pstrip s10)

/-! ## Emirate resolution (`1_convert_csv_to_json.py`, lines 142-377)

The address regexes use no `\b`-free constructs beyond word sequences
separated by `\s+`, character classes `[, ]` / `[- ]` / `([, -]|$)`, the
dotted-abbreviation pattern `U\.?A\.?E\.?`, and trailing parentheticals.
Each is modelled by a dedicated matcher with Python's leftmost,
non-overlapping, greedy-with-backtracking semantics. -/

/-- Match a sequence of words separated by `\s+` (case-insensitive against
uppercase patterns), returning the remainder. -/
def matchWordsSeq : List (List Char) → List Char → Option (List Char)
  | [], s => some s
  | w :: rest, s =>
    if prefixCI w s then
      let r := s.drop w.length
      match rest with
      | [] => some r
      | _ :: _ =>
        if (r.takeWhile isWS).isEmpty then none
        else matchWordsSeq rest (r.dropWhile isWS)
    else none

/-- Match a sequence of words with word boundaries at both ends (for
`re.search(r'\bW1\s+W2...\b', s, IGNORECASE)`). -/
def matchWordsBound : List (List Char) → List Char → Bool
  | [], s =>
    match s with
    | [] => true
    | d :: _ => !isWordChar d
  | w :: rest, s =>
    prefixCI w s &&
      (let r := s.drop w.length
       match rest with
       | [] =>
         (match r with
          | [] => true
          | d :: _ => !isWordChar d)
       | _ :: _ => !(r.takeWhile isWS).isEmpty && matchWordsBound rest (r.dropWhile isWS))

/-- Scan for a bounded word-sequence match, tracking whether the previous
character is a word character. -/
def containsWordsAux (words : List (List Char)) : Bool → List Char → Bool
  | _, [] => false
  | prev, c :: rest =>
    (!prev && matchWordsBound words (c :: rest)) || containsWordsAux words (isWordChar c) rest

/-- `re.search(r'\bW1\s+W2...\b', s, IGNORECASE) is not None`. -/
def containsWordsCI (words : List (List Char)) (s : List Char) : Bool :=
  containsWordsAux words false s

/-- Consume `U\.?A\.?E` case-insensitively (the interior optional dots are
deterministic: a dot is taken exactly when present, since the following
letter cannot match a dot). -/
def matchUAEbody (s : List Char) : Option (List Char) :=
  match s with
  | u :: s1 =>
    if u.toUpper = 'U' then
      let s2 := match s1 with
        | '.' :: r => r
        | _ => s1
      match s2 with
      | a :: s3 =>
        if a.toUpper = 'A' then
          let s4 := match s3 with
            | '.' :: r => r
            | _ => s3
          match s4 with
          | e :: s5 => if e.toUpper = 'E' then some s5 else none
          | [] => none
        else none
      | [] => none
    else none
  | [] => none

/-- Scan for `\bU\.?A\.?E\.?\b`: after `U.?A.?E`, the trailing `\.?\b`
succeeds exactly when the next character is absent or a non-word character
(a following dot is itself a non-word character, so the optional final dot
never affects matchability). -/
def containsUAEAux : Bool → List Char → Bool
  | _, [] => false
  | prev, c :: rest =>
    (!prev &&
      (match matchUAEbody (c :: rest) with
       | some r =>
         (match r with
          | [] => true
          | d :: _ => !isWordChar d)
       | none => false)) ||
    containsUAEAux (isWordChar c) rest

/-- The tail `\s*([, -]|$)` of the removal patterns, at `r2`; returns the
captured group (the replacement) and the remainder.  Greedy `\s*` with
backtracking: after the maximal whitespace run the group matches `,`/`-` or
the end; otherwise the group takes the last space of the run. -/
def matchTail (r2 : List Char) : Option (List Char × List Char) :=
  let ws := r2.takeWhile isWS
  let r3 := r2.dropWhile isWS
  match r3 with
  | [] => some ([], [])
  | d :: r4 =>
    if d = ',' || d = '-' then some ([d], r4)
    else
      match ws.reverse.findIdx? (fun c => c = ' ') with
      | some irev => some ([' '], ws.drop (ws.length - irev) ++ r3)
      | none => none

/-- One match attempt of `<head>\s*W1\s+W2...\s*([, -]|$)` at the start of
`s` (`head` is the one-character class `[, ]` or `[- ]`); returns the
replacement (the captured group) and the remainder. -/
def tryMatchHeadWords (isHead : Char → Bool) (words : List (List Char))
    (s : List Char) : Option (List Char × List Char) :=
  match s with
  | c :: rest =>
    if isHead c then
      match matchWordsSeq words (rest.dropWhile isWS) with
      | some r2 => matchTail r2
      | none => none
    else none
  | [] => none

/-- One match attempt of `<head>\s*U\.?A\.?E\.?\s*([, -]|$)`: the final
optional dot is taken greedily, backtracking if the tail then fails. -/
def tryMatchHeadUAE (isHead : Char → Bool) (s : List Char) :
    Option (List Char × List Char) :=
  match s with
  | c :: rest =>
    if isHead c then
      match matchUAEbody (rest.dropWhile isWS) with
      | some r2 =>
        (match r2 with
         | '.' :: r3 =>
           (match matchTail r3 with
            | some x => some x
            | none => matchTail r2)
         | _ => matchTail r2)
      | none => none
    else none
  | [] => none

/-- `re.sub` driver: scan left to right, applying `tm` at each position; on
a match emit the replacement and continue at the remainder (replacements are
not rescanned).  Every match consumes at least one character, so fuel
`length + 1` suffices. -/
def subFuel (tm : List Char → Option (List Char × List Char)) :
    Nat → List Char → List Char
  | _, [] => []
  | 0, s => s
  | f + 1, c :: rest =>
    match tm (c :: rest) with
    | some (rep, rem) => rep ++ subFuel tm f rem
    | none => c :: subFuel tm f rest

/-- Apply one `re.sub` over the whole string. -/
def applySub (tm : List Char → Option (List Char × List Char)) (s : List Char) :
    List Char :=
  subFuel tm (s.length + 1) s

/-- `[, ]` — comma or space (a literal space, not the whitespace class). -/
def isHeadCS (c : Char) : Bool := c = ',' || c = ' '

/-- The head of the dash-variant removal patterns. -/
def isHeadDash (c : Char) : Bool := c = '-'

/-- The seven emirate word sequences of the removal patterns, in source
order. -/
def emirateWordSeqs : List (List (List Char)) :=
  [["ABU".toList, "DHABI".toList],
   ["DUBAI".toList],
   ["SHARJAH".toList],
   ["AJMAN".toList],
   ["UMM".toList, "AL".toList, "QUWAIN".toList],
   ["RAS".toList, "AL".toList, "KHAIMAH".toList],
   ["FUJAIRAH".toList]]

/-- `,\s*,+` → `,`. -/
def tryMultiComma (s : List Char) : Option (List Char × List Char) :=
  match s with
  | ',' :: r =>
    let r2 := r.dropWhile isWS
    let cs := r2.takeWhile (fun c => c = ',')
    if cs.isEmpty then none else some ([','], r2.drop cs.length)
  | _ => none

/-- `-\s*-+` → `-`. -/
def tryMultiDash (s : List Char) : Option (List Char × List Char) :=
  match s with
  | '-' :: r =>
    let r2 := r.dropWhile isWS
    let cs := r2.takeWhile (fun c => c = '-')
    if cs.isEmpty then none else some (['-'], r2.drop cs.length)
  | _ => none

/-- `,\s*-\s*` → ` - `. -/
def tryCommaDash (s : List Char) : Option (List Char × List Char) :=
  match s with
  | ',' :: r =>
    (match r.dropWhile isWS with
     | '-' :: r3 => some (" - ".toList, r3.dropWhile isWS)
     | _ => none)
  | _ => none

/-- `-\s*,\s*` → ` - `. -/
def tryDashComma (s : List Char) : Option (List Char × List Char) :=
  match s with
  | '-' :: r =>
    (match r.dropWhile isWS with
     | ',' :: r3 => some (" - ".toList, r3.dropWhile isWS)
     | _ => none)
  | _ => none

/-- `re.sub(r'<ch>\s*$', '', s)`: remove `ch` when it is the last
non-whitespace character, together with the whitespace after it. -/
def stripTrailingChar (ch : Char) (s : List Char) : List Char :=
  let t := dropTrailingWS s
  if t.getLast? = some ch then t.dropLast else s

/-- `extract_emirate_from_address`: first emirate whose bounded pattern
occurs in the address, in source order; results are title-case. -/
def extract_emirate_from_address (address : String) : Option String :=
  if address = "" then none
  else
    let s := address.toList
    if containsWordsCI ["ABU".toList, "DHABI".toList] s then some "Abu Dhabi"
    else if containsWordsCI ["DUBAI".toList] s then some "Dubai"
    else if containsWordsCI ["SHARJAH".toList] s then some "Sharjah"
    else if containsWordsCI ["AJMAN".toList] s then some "Ajman"
    else if containsWordsCI ["UMM".toList, "AL".toList, "QUWAIN".toList] s then
      some "Umm Al Quwain"
    else if containsWordsCI ["RAS".toList, "AL".toList, "KHAIMAH".toList] s then
      some "Ras Al Khaimah"
    else if containsWordsCI ["FUJAIRAH".toList] s then some "Fujairah"
    else none

/-- `extract_country_from_address`: `U.A.E` abbreviation (optional dots) or
the full country name, normalized to `UAE`. -/
def extract_country_from_address (address : String) : Option String :=
  if address = "" then none
  else
    let s := address.toList
    if containsUAEAux false s then some "UAE"
    else if containsWordsCI ["UNITED".toList, "ARAB".toList, "EMIRATES".toList] s then
      some "UAE"
    else none

/-- `remove_emirate_and_country_from_address`: record the found emirate and
country, delete each emirate/country mention (comma/space- and
dash-introduced variants), then clean up separators. -/
def remove_emirate_and_country_from_address (address : String) :
    String × Option String × Option String :=
  if address = "" then (address, none, none)
  else
    let emirate := extract_emirate_from_address address
    let country := extract_country_from_address address
    let s1 := emirateWordSeqs.foldl
      (fun acc ws => applySub (tryMatchHeadWords isHeadDash ws)
        (applySub (tryMatchHeadWords isHeadCS ws) acc)) address.toList
    let s2 := applySub (tryMatchHeadUAE isHeadDash) (applySub (tryMatchHeadUAE isHeadCS) s1)
    let uae := ["UNITED".toList, "ARAB".toList, "EMIRATES".toList]
    let s3 := applySub (tryMatchHeadWords isHeadDash uae)
      (applySub (tryMatchHeadWords isHeadCS uae) s2)
    let s4 := applySub tryMultiComma s3
    let s5 := applySub tryMultiDash s4
    let s6 := collapseWS s5
    let s7 := applySub tryDashComma (applySub tryCommaDash s6)
    let s8 := stripTrailingChar ',' s7
    let s9 := stripTrailingChar '-' s8
    let s10 := dropTrailingWS s9
    (String.mk (pstrip s10), emirate, country)

/-- `A\s+B...\s*$` anchored at the very start of `t` (used after a `[- ]`
character or at an arbitrary suffix for the boundary-free patterns). -/
def matchWordsEnd (words : List (List Char)) (t : List Char) : Bool :=
  match matchWordsSeq words t with
  | some r => r.all isWS
  | none => false

/-- `extract_emirate_from_name`: a trailing parenthetical, else a trailing
emirate token after a dash/space (or bare for DUBAI/SHARJAH/AJMAN), else an
unclosed parenthetical mentioning ABU DHABI or DUBAI. -/
def extract_emirate_from_name (name : String) : Option String :=
  if name = "" then none
  else
    let s := name.toList
    let t := dropTrailingWS s
    let parenResult : Option String :=
      if t.getLast? = some ')' then
        match findParenAux t.dropLast with
        | some i =>
          let g := String.mk ((pstrip (t.dropLast.drop (i + 1))).map Char.toUpper)
          if g = "GOVERNMENT-DHA" then some "DUBAI"
          else if g = "AL AIN" || g = "ALAIN" then some "AL AIN"
          else some g
        | none => none
      else none
    match parenResult with
    | some e => some e
    | none =>
      let nu := pstrip (s.map Char.toUpper)
      let endsB := fun (alts : List (List (List Char))) =>
        nu.tails.any (fun suf =>
          match suf with
          | c :: rest => (c = '-' || c = ' ') && alts.any (fun ws => matchWordsEnd ws rest)
          | [] => false)
      let endsP := fun (ws : List (List Char)) =>
        nu.tails.any (fun suf => matchWordsEnd ws suf)
      let unclosed := fun (inner : List Char → Bool) =>
        nu.tails.any (fun suf =>
          match suf with
          | '(' :: rest => !rest.contains ')' && inner rest
          | _ => false)
      let hasABUsDHABI := fun (r : List Char) =>
        r.tails.any (fun q =>
          prefixCI "ABU".toList q &&
            prefixCI "DHABI".toList ((q.drop 3).dropWhile isWS))
      let hasDUBAI := fun (r : List Char) =>
        r.tails.any (fun q => prefixCI "DUBAI".toList q)
      if endsB [["ABU".toList, "DHABI".toList], ["ABUDHABI".toList]] then some "ABU DHABI"
      else if endsB [["DUBAI".toList]] then some "DUBAI"
      else if endsB [["SHARJAH".toList]] then some "SHARJAH"
      else if endsB [["AJMAN".toList]] then some "AJMAN"
      else if endsB [["UMM".toList, "AL".toList, "QUWAIN".toList]] then some "UMM AL QUWAIN"
      else if endsB [["RAS".toList, "AL".toList, "KHAIMAH".toList]] then some "RAS AL KHAIMAH"
      else if endsB [["FUJAIRAH".toList]] then some "FUJAIRAH"
      else if endsP ["DUBAI".toList] then some "DUBAI"
      else if endsP ["SHARJAH".toList] then some "SHARJAH"
      else if endsP ["AJMAN".toList] then some "AJMAN"
      else if unclosed hasABUsDHABI then some "ABU DHABI"
      else if unclosed hasDUBAI then some "DUBAI"
      else none

/-- Python `str.title()` (ASCII letters): uppercase the first letter of each
letter run, lowercase the rest. -/
def pytitleAux : Bool → List Char → List Char
  | _, [] => []
  | prev, c :: rest =>
    (if c.isAlpha then (if prev then c.toLower else c.toUpper) else c) ::
      pytitleAux c.isAlpha rest

/-- `normalize_emirate_name`: a fixed uppercase-to-title-case map, falling
back to `str.title()`. -/
def normalize_emirate_name (emirate : String) : String :=
  if emirate = "" then ""
  else
    let eu := String.mk (pstrip (emirate.toList.map Char.toUpper))
    if eu = "ABU DHABI" then "Abu Dhabi"
    else if eu = "DUBAI" then "Dubai"
    else if eu = "SHARJAH" then "Sharjah"
    else if eu = "AJMAN" then "Ajman"
    else if eu = "UMM AL QUWAIN" then "Umm Al Quwain"
    else if eu = "RAS AL KHAIMAH" then "Ras Al Khaimah"
    else if eu = "FUJAIRAH" then "Fujairah"
    else if eu = "ABU - DHABI" then "Abu Dhabi"
    else if eu = "ABU-DHABI" then "Abu Dhabi"
    else String.mk (pytitleAux false emirate.toList)

/-- `add_emirate_to_address(address, name)`. -/
def add_emirate_to_address (address name : String) : String :=
  if (pstrip address.toList).isEmpty then
    match extract_emirate_from_name name with
    | some e =>
      if e = "AL AIN" then "Al Ain, Abu Dhabi, UAE"
      else
        let em := normalize_emirate_name e
        if em ≠ "" then em ++ ", UAE" else address
    | none => address
  else
    let r := remove_emirate_and_country_from_address address
    let cleaned := r.1
    let found_emirate := r.2.1
    let found_country := r.2.2
    let country := match found_country with
      | some co => co
      | none => "UAE"
    match found_emirate with
    | some em =>
      if em ≠ "" then cleaned ++ ", " ++ em ++ ", " ++ country else cleaned
    | none =>
      match extract_emirate_from_name name with
      | some e =>
        if e = "AL AIN" then
          let cleaned2 :=
            if containsWordsCI ["AL".toList, "AIN".toList] cleaned.toList then cleaned
            else cleaned ++ ", Al Ain"
          cleaned2 ++ ", Abu Dhabi, " ++ country
        else
          let em := normalize_emirate_name e
          if em ≠ "" then cleaned ++ ", " ++ em ++ ", " ++ country else cleaned
      | none => cleaned

/-- Count non-overlapping occurrences of `w` (nonempty) in a string, left to
right. -/
def countOccur (w : List Char) : Nat → List Char → Nat
  | _, [] => 0
  | 0, _ => 0
  | f + 1, c :: rest =>
    if w.isPrefixOf (c :: rest) then 1 + countOccur w f ((c :: rest).drop w.length)
    else countOccur w f rest

/-- Occurrence count of a substring. -/
def countSubstr (w s : String) : Nat :=
  countOccur w.toList (s.length + 1) s.toList

/-- Stage-1 output records carry no provider keys at all. -/
def NormalizedInput (input : List Clinic) : Prop :=
  ∀ c ∈ input, c.locationiq = none ∧ c.opencage = none ∧ c.google = none

/-- States of the reconciliation file reachable from an absent state file by
running provider passes (any provider, any cap, any oracle behaviour) on the
fixed normalized input. -/
inductive Reachable (input : List Clinic) : List Clinic → Prop where
  | base : Reachable input []
  | step (p : Provider) (cap : Option Nat) (oracle : String → Option (ℚ × ℚ))
      {s : List Clinic} (h : Reachable input s) :
      Reachable input (runPass p cap oracle input s).1

/-! ## Basic lemmas about the pass components -/

@[simp] theorem getAtt_setAtt_self (p : Provider) (v : List ℚ) (c : Clinic) :
    getAtt p (setAtt p v c) = some v := by
  cases p <;> rfl

theorem getAtt_setAtt_ne (p q : Provider) (hpq : q ≠ p) (v : List ℚ) (c : Clinic) :
    getAtt q (setAtt p v c) = getAtt q c := by
  cases p <;> cases q <;> first | rfl | exact absurd rfl hpq

@[simp] theorem id_setAtt (p : Provider) (v : List ℚ) (c : Clinic) :
    (setAtt p v c).id = c.id := by
  cases p <;> rfl

@[simp] theorem id_preMark (p : Provider) (c : Clinic) : (preMark p c).id = c.id := by
  cases p <;> rfl

@[simp] theorem id_geoStep (p : Provider) (c : Clinic) (res : Option (ℚ × ℚ)) :
    (geoStep p c res).id = c.id := by
  unfold geoStep
  cases res with
  | none => simp
  | some lp => cases lp with
    | mk lat lng => dsimp only; split <;> simp

@[simp] theorem id_revalOne (p : Provider) (c : Clinic) : (revalOne p c).id = c.id := by
  unfold revalOne
  rcases h : getAtt p c with _ | l
  · rfl
  · match l with
    | [] => rfl
    | [a] => rfl
    | a :: b :: d :: t => rfl
    | [a, b] => dsimp only; split <;> simp

@[simp] theorem id_initClinic (p : Provider) (c : Clinic) : (initClinic p c).id = c.id := by
  cases p <;> simp [initClinic] <;> split <;> rfl

theorem preMark_fallback (p : Provider) (hp : p ≠ Provider.locationiq) (c : Clinic) :
    preMark p c = c := by
  cases p with
  | locationiq => exact absurd rfl hp
  | opencage => rfl
  | google => rfl

/-- A record whose entry under `p`, if it is a two-element list, lies inside
the bounding box. -/
def ValidEntry (p : Provider) (c : Clinic) : Prop :=
  ∀ lat lng, getAtt p c = some [lat, lng] → is_valid_uae_coordinates lat lng = true

theorem validEntry_geoStep (p : Provider) (c : Clinic) (res : Option (ℚ × ℚ)) :
    ValidEntry p (geoStep p c res) := by
  intro lat lng h
  unfold geoStep at h
  rcases res with _ | ⟨la, ln⟩
  · simp at h
  · dsimp only at h
    by_cases hv : is_valid_uae_coordinates la ln = true
    · rw [if_pos hv] at h
      simp at h
      obtain ⟨h1, h2⟩ := h
      subst h1; subst h2; exact hv
    · rw [if_neg hv] at h
      simp at h

theorem getAtt_geoStep_ne (p q : Provider) (hpq : q ≠ p) (c : Clinic) (res : Option (ℚ × ℚ)) :
    getAtt q (geoStep p c res) = getAtt q c := by
  unfold geoStep
  rcases res with _ | ⟨la, ln⟩
  · exact getAtt_setAtt_ne p q hpq [] c
  · dsimp only; split
    · exact getAtt_setAtt_ne p q hpq [la, ln] c
    · exact getAtt_setAtt_ne p q hpq [] c

theorem revalOne_pair (p : Provider) (c : Clinic) (a b : ℚ)
    (hc : getAtt p c = some [a, b]) :
    revalOne p c = if is_valid_uae_coordinates a b then c else setAtt p [] c := by
  unfold revalOne
  rw [hc]

theorem revalOne_other (p : Provider) (c : Clinic)
    (hc : ∀ a b, getAtt p c ≠ some [a, b]) : revalOne p c = c := by
  unfold revalOne
  rcases h : getAtt p c with _ | l
  · rfl
  · match l with
    | [] => rfl
    | [a] => rfl
    | [a, b] => exact absurd h (hc a b)
    | a :: b :: d :: t => rfl

theorem validEntry_revalOne (p : Provider) (c : Clinic) : ValidEntry p (revalOne p c) := by
  intro lat lng h
  by_cases hp : ∀ a b, getAtt p c ≠ some [a, b]
  · rw [revalOne_other p c hp] at h
    exact absurd h (hp lat lng)
  · push_neg at hp
    obtain ⟨a, b, hab⟩ := hp
    rw [revalOne_pair p c a b hab] at h
    by_cases hv : is_valid_uae_coordinates a b = true
    · rw [if_pos hv] at h
      rw [hab] at h
      obtain ⟨h1, h2⟩ : a = lat ∧ b = lng := by simpa using h
      subst h1; subst h2; exact hv
    · rw [if_neg hv] at h
      simp at h

theorem revalOne_of_validEntry (p : Provider) (c : Clinic) (h : ValidEntry p c) :
    revalOne p c = c := by
  by_cases hp : ∀ a b, getAtt p c ≠ some [a, b]
  · exact revalOne_other p c hp
  · push_neg at hp
    obtain ⟨a, b, hab⟩ := hp
    rw [revalOne_pair p c a b hab, if_pos (h a b hab)]

theorem getAtt_revalOne_ne (p q : Provider) (hpq : q ≠ p) (c : Clinic) :
    getAtt q (revalOne p c) = getAtt q c := by
  by_cases hp : ∀ a b, getAtt p c ≠ some [a, b]
  · rw [revalOne_other p c hp]
  · push_neg at hp
    obtain ⟨a, b, hab⟩ := hp
    rw [revalOne_pair p c a b hab]
    split
    · rfl
    · exact getAtt_setAtt_ne p q hpq [] c

theorem getAtt_revalOne_none (p : Provider) (c : Clinic) (h : getAtt p c = none) :
    revalOne p c = c :=
  revalOne_other p c (fun a b hab => by rw [h] at hab; exact Option.noConfusion hab)

theorem revalidate_of_validEntry (p : Provider) (s : List Clinic)
    (h : ∀ c ∈ s, ValidEntry p c) : revalidate p s = s := by
  unfold revalidate
  induction s with
  | nil => rfl
  | cons c t ih =>
    simp only [List.map_cons]
    rw [revalOne_of_validEntry p c (h c (List.mem_cons_self c t)),
      ih (fun d hd => h d (List.mem_cons_of_mem c hd))]

theorem validEntry_revalidate (p : Provider) (s : List Clinic) :
    ∀ c ∈ revalidate p s, ValidEntry p c := by
  intro c hc
  unfold revalidate at hc
  obtain ⟨d, _, rfl⟩ := List.mem_map.1 hc
  exact validEntry_revalOne p d

theorem mem_revalidate (p : Provider) (s : List Clinic) (c : Clinic)
    (hc : c ∈ revalidate p s) : ∃ d ∈ s, c = revalOne p d := by
  obtain ⟨d, hd, rfl⟩ := List.mem_map.1 hc
  exact ⟨d, hd, rfl⟩

/-! ## Merge-step lemmas -/

theorem hasId_mono_merge (p : Provider) (input : List Clinic) (s : List Clinic) (i : Int)
    (h : hasId s i = true) : hasId (mergeStep p input s) i = true := by
  unfold mergeStep
  induction input generalizing s with
  | nil => exact h
  | cons c t ih =>
    simp only [List.foldl_cons]
    split
    · exact ih s h
    · refine ih _ ?_
      unfold hasId at h ⊢
      simp only [List.any_append, h, Bool.true_or]

theorem hasId_merge_input (p : Provider) (input : List Clinic) (s : List Clinic) :
    ∀ c ∈ input, hasId (mergeStep p input s) c.id = true := by
  induction input generalizing s with
  | nil => intro c hc; simp at hc
  | cons d t ih =>
    intro c hc
    rcases List.mem_cons.1 hc with rfl | hct
    · show hasId (mergeStep p (c :: t) s) c.id = true
      unfold mergeStep
      simp only [List.foldl_cons]
      by_cases hd : hasId s c.id = true
      · rw [if_pos hd]
        exact hasId_mono_merge p t s c.id hd
      · rw [if_neg hd]
        refine hasId_mono_merge p t _ c.id ?_
        unfold hasId
        simp [initClinic]
        cases p <;> simp [initClinic] <;> split <;> simp
    · show hasId (mergeStep p (d :: t) s) c.id = true
      unfold mergeStep
      simp only [List.foldl_cons]
      split
      · exact ih s c hct
      · exact ih _ c hct

theorem mergeStep_noop (p : Provider) (input : List Clinic) (s : List Clinic)
    (h : ∀ c ∈ input, hasId s c.id = true) : mergeStep p input s = s := by
  unfold mergeStep
  induction input with
  | nil => rfl
  | cons c t ih =>
    simp only [List.foldl_cons]
    rw [if_pos (h c (List.mem_cons_self c t))]
    exact ih (fun d hd => h d (List.mem_cons_of_mem c hd))

theorem mem_mergeStep (p : Provider) (input : List Clinic) (s : List Clinic) (c : Clinic)
    (hc : c ∈ mergeStep p input s) : c ∈ s ∨ ∃ d ∈ input, c = initClinic p d := by
  unfold mergeStep at hc
  induction input generalizing s with
  | nil => exact Or.inl hc
  | cons d t ih =>
    simp only [List.foldl_cons] at hc
    by_cases hd : hasId s d.id = true
    · rw [if_pos hd] at hc
      rcases ih s hc with h | ⟨e, he, rfl⟩
      · exact Or.inl h
      · exact Or.inr ⟨e, List.mem_cons_of_mem d he, rfl⟩
    · rw [if_neg hd] at hc
      rcases ih _ hc with h | ⟨e, he, rfl⟩
      · rcases List.mem_append.1 h with h1 | h1
        · exact Or.inl h1
        · rcases List.mem_singleton.1 h1 with rfl
          exact Or.inr ⟨d, List.mem_cons_self d t, rfl⟩
      · exact Or.inr ⟨e, List.mem_cons_of_mem d he, rfl⟩

/-! ## Loop lemmas -/

theorem passLoop_length (p : Provider) (cap : Option Nat) (o : String → Option (ℚ × ℚ))
    (ls : List Clinic) (n : Nat) : (passLoop p cap o ls n).1.length = ls.length := by
  induction ls generalizing n with
  | nil => rfl
  | cons c rest ih =>
    simp only [passLoop]
    by_cases he : elig p c = true
    · rw [if_pos he]
      by_cases hc : capReached cap n = true
      · rw [if_pos hc]
        simp
      · rw [if_neg hc]
        simp [ih]
    · rw [if_neg he]
      simp [ih]

theorem passLoop_map_id (p : Provider) (cap : Option Nat) (o : String → Option (ℚ × ℚ))
    (ls : List Clinic) (n : Nat) :
    (passLoop p cap o ls n).1.map (fun cb => cb.1.id) = ls.map (fun c => c.id) := by
  induction ls generalizing n with
  | nil => rfl
  | cons c rest ih =>
    simp only [passLoop]
    by_cases he : elig p c = true
    · rw [if_pos he]
      by_cases hc : capReached cap n = true
      · rw [if_pos hc]
        simp [List.map_map]
      · rw [if_neg hc]
        simp [ih]
    · rw [if_neg he]
      simp [ih]

theorem passLoop_pres (p : Provider) (cap : Option Nat) (o : String → Option (ℚ × ℚ))
    (P : Clinic → Prop)
    (hpre : ∀ c, P c → P (preMark p c))
    (hgeo : ∀ c res, P c → P (geoStep p (preMark p c) res))
    (ls : List Clinic) (n : Nat) (h : ∀ c ∈ ls, P c) :
    ∀ cb ∈ (passLoop p cap o ls n).1, P cb.1 := by
  induction ls generalizing n with
  | nil => intro cb hcb; simp [passLoop] at hcb
  | cons c rest ih =>
    intro cb hcb
    simp only [passLoop] at hcb
    have hhead : P c := h c (List.mem_cons_self c rest)
    have htail : ∀ d ∈ rest, P d := fun d hd => h d (List.mem_cons_of_mem c hd)
    by_cases he : elig p c = true
    · rw [if_pos he] at hcb
      by_cases hcap : capReached cap n = true
      · rw [if_pos hcap] at hcb
        rcases List.mem_cons.1 hcb with rfl | hmem
        · exact hpre c hhead
        · obtain ⟨d, hd, rfl⟩ := List.mem_map.1 hmem
          exact htail d hd
      · rw [if_neg hcap] at hcb
        rcases List.mem_cons.1 hcb with rfl | hmem
        · exact hgeo c (o (query c)) hhead
        · exact ih (n + 1) htail cb hmem
    · rw [if_neg he] at hcb
      rcases List.mem_cons.1 hcb with rfl | hmem
      · exact hhead
      · exact ih n htail cb hmem

theorem passLoop_post_uncapped (p : Provider) (o : String → Option (ℚ × ℚ))
    (hpost : ∀ c res, elig p (geoStep p (preMark p c) res) = false)
    (ls : List Clinic) (n : Nat) :
    ∀ cb ∈ (passLoop p none o ls n).1, elig p cb.1 = false := by
  induction ls generalizing n with
  | nil => intro cb hcb; simp [passLoop] at hcb
  | cons c rest ih =>
    intro cb hcb
    simp only [passLoop] at hcb
    by_cases he : elig p c = true
    · rw [if_pos he] at hcb
      have hcap : capReached none n = false := rfl
      rw [hcap] at hcb
      simp only [Bool.false_eq_true, if_false] at hcb
      rcases List.mem_cons.1 hcb with rfl | hmem
      · exact hpost c (o (query c))
      · exact ih (n + 1) cb hmem
    · rw [if_neg he] at hcb
      rcases List.mem_cons.1 hcb with rfl | hmem
      · exact Bool.not_eq_true _ ▸ he
      · exact ih n cb hmem

theorem passLoop_skipall (p : Provider) (cap : Option Nat) (o : String → Option (ℚ × ℚ))
    (ls : List Clinic) (n : Nat) (h : ∀ c ∈ ls, elig p c = false) :
    passLoop p cap o ls n = (ls.map (fun c => (c, false)), n) := by
  induction ls generalizing n with
  | nil => rfl
  | cons c rest ih =>
    simp only [passLoop]
    rw [if_neg (by simp [h c (List.mem_cons_self c rest)])]
    rw [ih n (fun d hd => h d (List.mem_cons_of_mem c hd))]
    simp

theorem passLoop_false_mem (p : Provider) (cap : Option Nat) (o : String → Option (ℚ × ℚ))
    (hpre : ∀ c, preMark p c = c) (ls : List Clinic) (n : Nat) :
    ∀ cb ∈ (passLoop p cap o ls n).1, cb.2 = false → cb.1 ∈ ls := by
  induction ls generalizing n with
  | nil => intro cb hcb; simp [passLoop] at hcb
  | cons c rest ih =>
    intro cb hcb hflag
    simp only [passLoop] at hcb
    by_cases he : elig p c = true
    · rw [if_pos he] at hcb
      by_cases hcap : capReached cap n = true
      · rw [if_pos hcap] at hcb
        rcases List.mem_cons.1 hcb with rfl | hmem
        · rw [hpre c]; exact List.mem_cons_self c rest
        · obtain ⟨d, hd, rfl⟩ := List.mem_map.1 hmem
          exact List.mem_cons_of_mem c hd
      · rw [if_neg hcap] at hcb
        rcases List.mem_cons.1 hcb with rfl | hmem
        · simp at hflag
        · exact List.mem_cons_of_mem c (ih (n + 1) cb hmem hflag)
    · rw [if_neg he] at hcb
      rcases List.mem_cons.1 hcb with rfl | hmem
      · exact List.mem_cons_self c rest
      · exact List.mem_cons_of_mem c (ih n cb hmem hflag)

/-! ## Per-provider facts -/

theorem getAtt_geoStep_isSome (p : Provider) (c : Clinic) (res : Option (ℚ × ℚ)) :
    ∃ v, getAtt p (geoStep p c res) = some v := by
  unfold geoStep
  rcases res with _ | ⟨la, ln⟩
  · exact ⟨[], getAtt_setAtt_self p [] c⟩
  · dsimp only
    split
    · exact ⟨[la, ln], getAtt_setAtt_self p [la, ln] c⟩
    · exact ⟨[], getAtt_setAtt_self p [] c⟩

theorem elig_of_getAtt_some (p : Provider) (c : Clinic) (v : List ℚ)
    (h : getAtt p c = some v) : elig p c = false := by
  cases p with
  | locationiq => simp only [elig]; rw [show c.locationiq = some v from h]; rfl
  | opencage =>
    simp only [elig, should_geocode_opencage]
    have ho : c.opencage = some v := h
    cases c.locationiq with
    | none => rfl
    | some l => rw [ho]; simp
  | google =>
    simp only [elig, should_geocode_google]
    rw [show c.google = some v from h]
    rfl

theorem elig_geoStep_false (p : Provider) (c : Clinic) (res : Option (ℚ × ℚ)) :
    elig p (geoStep p (preMark p c) res) = false := by
  obtain ⟨v, hv⟩ := getAtt_geoStep_isSome p (preMark p c) res
  exact elig_of_getAtt_some p _ v hv

theorem validEntry_of_nonpair (p : Provider) (c : Clinic)
    (h : ∀ a b, getAtt p c ≠ some [a, b]) : ValidEntry p c :=
  fun a b hab => absurd hab (h a b)

theorem validEntry_of_none (p : Provider) (c : Clinic) (h : getAtt p c = none) :
    ValidEntry p c :=
  validEntry_of_nonpair p c (fun a b hab => by rw [h] at hab; exact Option.noConfusion hab)

theorem validEntry_of_nil (p : Provider) (c : Clinic) (h : getAtt p c = some []) :
    ValidEntry p c :=
  validEntry_of_nonpair p c (fun a b hab => by rw [h] at hab; simp at hab)

theorem validEntry_setAtt_nil (p : Provider) (c : Clinic) : ValidEntry p (setAtt p [] c) :=
  validEntry_of_nil p _ (getAtt_setAtt_self p [] c)

theorem validEntry_preMark (p q : Provider) (c : Clinic) (h : ValidEntry q c) :
    ValidEntry q (preMark p c) := by
  cases p with
  | locationiq =>
    have hpm : preMark Provider.locationiq c = setAtt Provider.locationiq [] c := rfl
    rw [hpm]
    by_cases hq : q = Provider.locationiq
    · subst hq; exact validEntry_setAtt_nil _ c
    · intro a b hab
      rw [getAtt_setAtt_ne _ q hq [] c] at hab
      exact h a b hab
  | opencage => exact h
  | google => exact h

theorem allValid_geoStep (p : Provider) (c : Clinic) (res : Option (ℚ × ℚ))
    (h : ∀ q, ValidEntry q c) : ∀ q, ValidEntry q (geoStep p (preMark p c) res) := by
  intro q
  by_cases hq : q = p
  · subst hq; exact validEntry_geoStep q (preMark q c) res
  · intro a b hab
    rw [getAtt_geoStep_ne p q hq (preMark p c) res] at hab
    exact validEntry_preMark p q c (h q) a b hab

theorem initClinic_normalized (p : Provider) (d : Clinic) (h1 : d.locationiq = none) :
    initClinic p d = { d with locationiq := some [] } := by
  cases p with
  | locationiq => rfl
  | opencage => simp [initClinic, h1]
  | google => simp [initClinic, h1]

theorem allValid_initClinic (p : Provider) (d : Clinic)
    (h1 : d.locationiq = none) (h2 : d.opencage = none) (h3 : d.google = none) :
    ∀ q, ValidEntry q (initClinic p d) := by
  intro q
  rw [initClinic_normalized p d h1]
  cases q with
  | locationiq => exact validEntry_of_nil _ _ rfl
  | opencage => exact validEntry_of_none _ _ h2
  | google => exact validEntry_of_none _ _ h3

theorem allValid_revalOne (p : Provider) (d : Clinic) (h : ∀ q, ValidEntry q d) :
    ∀ q, ValidEntry q (revalOne p d) := by
  intro q
  by_cases hq : q = p
  · subst hq; exact validEntry_revalOne q d
  · intro a b hab
    rw [getAtt_revalOne_ne p q hq d] at hab
    exact h q a b hab

/-- Every record of the loop input list of a pass (fresh-initialized input,
or the merged-and-revalidated state) has all its stored pairs in bounds,
whenever the prior state does and the input is normalized. -/
theorem allValid_loopInput (p : Provider) (input s : List Clinic)
    (hin : NormalizedInput input) (hs : ∀ c ∈ s, ∀ q, ValidEntry q c) :
    ∀ c ∈ loopInput p input s, ∀ q, ValidEntry q c := by
  intro c hc
  unfold loopInput at hc
  by_cases hemp : s.isEmpty
  · rw [if_pos hemp] at hc
    obtain ⟨d, hd, rfl⟩ := List.mem_map.1 hc
    obtain ⟨h1, h2, h3⟩ := hin d hd
    exact allValid_initClinic p d h1 h2 h3
  · rw [if_neg hemp] at hc
    obtain ⟨d, hd, rfl⟩ := mem_revalidate p _ c hc
    refine allValid_revalOne p d ?_
    rcases mem_mergeStep p input s d hd with hds | ⟨e, he, rfl⟩
    · exact hs d hds
    · obtain ⟨h1, h2, h3⟩ := hin e he
      exact allValid_initClinic p e h1 h2 h3

theorem runPassI_eq_loop (p : Provider) (cap : Option Nat) (o : String → Option (ℚ × ℚ))
    (input s : List Clinic) :
    runPassI p cap o input s = passLoop p cap o (loopInput p input s) 0 := by
  unfold runPassI loopInput
  split <;> rfl

theorem allValid_runPass (p : Provider) (cap : Option Nat) (o : String → Option (ℚ × ℚ))
    (input s : List Clinic) (hin : NormalizedInput input)
    (hs : ∀ c ∈ s, ∀ q, ValidEntry q c) :
    ∀ c ∈ (runPass p cap o input s).1, ∀ q, ValidEntry q c := by
  intro c hc
  unfold runPass at hc
  obtain ⟨cb, hcb, rfl⟩ := List.mem_map.1 hc
  rw [runPassI_eq_loop] at hcb
  refine passLoop_pres p cap o (fun c => ∀ q, ValidEntry q c)
    (fun c h q => validEntry_preMark p q c (h q))
    (fun c res h => allValid_geoStep p c res h)
    (loopInput p input s) 0 (allValid_loopInput p input s hin hs) cb hcb

theorem allValid_reachable (input : List Clinic) (hin : NormalizedInput input)
    (s : List Clinic) (hs : Reachable input s) : ∀ c ∈ s, ∀ q, ValidEntry q c := by
  induction hs with
  | base => intro c hc; simp at hc
  | step p cap oracle h ih => exact allValid_runPass p cap oracle input _ hin ih

theorem is_valid_uae_coordinates_iff (lat lng : ℚ) :
    is_valid_uae_coordinates lat lng = true ↔
      (22.5 ≤ lat ∧ lat ≤ 26.5 ∧ 52.0 ≤ lng ∧ lng ≤ 57.0) := by
  simp [is_valid_uae_coordinates, and_assoc]

/-- **C1.** In every persisted reconciliation state reachable by running the
three provider passes (starting from an absent state file and the normalized
input), every stored provider coordinate pair satisfies latitude ∈
[22.5, 26.5] and longitude ∈ [52.0, 57.0]; and a geocoding result outside
these bounds is stored as an empty attempt, never as a pair. -/
theorem claim_C1_bounds_invariant (input : List Clinic) (hin : NormalizedInput input)
    (s : List Clinic) (hs : Reachable input s) :
    (∀ c ∈ s, ∀ p lat lng, getAtt p c = some [lat, lng] →
        22.5 ≤ lat ∧ lat ≤ 26.5 ∧ 52.0 ≤ lng ∧ lng ≤ 57.0) ∧
    (∀ (p : Provider) (c : Clinic) (lat lng : ℚ),
        ¬(22.5 ≤ lat ∧ lat ≤ 26.5 ∧ 52.0 ≤ lng ∧ lng ≤ 57.0) →
        geoStep p c (some (lat, lng)) = setAtt p [] c) := by
  constructor
  · intro c hc p lat lng hpair
    exact (is_valid_uae_coordinates_iff lat lng).1
      (allValid_reachable input hin s hs c hc p lat lng hpair)
  · intro p c lat lng hout
    unfold geoStep
    dsimp only
    rw [if_neg (fun hv => hout ((is_valid_uae_coordinates_iff lat lng).1 hv))]

/-- Witness for C1 at a concrete reachable state: one google pass over a
single normalized record against an out-of-bounds oracle. -/
theorem claim_C1_bounds_invariant_witness :
    (∀ c ∈ stateC1, ∀ p lat lng, getAtt p c = some [lat, lng] →
        22.5 ≤ lat ∧ lat ≤ 26.5 ∧ 52.0 ≤ lng ∧ lng ≤ 57.0) ∧
    (∀ (p : Provider) (c : Clinic) (lat lng : ℚ),
        ¬(22.5 ≤ lat ∧ lat ≤ 26.5 ∧ 52.0 ≤ lng ∧ lng ≤ 57.0) →
        geoStep p c (some (lat, lng)) = setAtt p [] c) := by
  have h : Reachable [clinicA] stateC1 :=
    Reachable.step Provider.google none badOracle Reachable.base
  refine claim_C1_bounds_invariant [clinicA] ?_ stateC1 h
  intro c hc
  rw [List.mem_singleton] at hc
  subst hc
  exact ⟨rfl, rfl, rfl⟩

/-! ## Idempotence of a provider pass (C3) -/

theorem validEntryP_loopInput (p : Provider) (input s : List Clinic)
    (hin : NormalizedInput input) : ∀ c ∈ loopInput p input s, ValidEntry p c := by
  intro c hc
  unfold loopInput at hc
  by_cases hemp : s.isEmpty
  · rw [if_pos hemp] at hc
    obtain ⟨d, hd, rfl⟩ := List.mem_map.1 hc
    obtain ⟨h1, h2, h3⟩ := hin d hd
    exact allValid_initClinic p d h1 h2 h3 p
  · rw [if_neg hemp] at hc
    exact validEntry_revalidate p _ c hc

theorem runPass_validEntry (p : Provider) (cap : Option Nat) (o : String → Option (ℚ × ℚ))
    (input s : List Clinic) (hin : NormalizedInput input) :
    ∀ c ∈ (runPass p cap o input s).1, ValidEntry p c := by
  intro c hc
  unfold runPass at hc
  obtain ⟨cb, hcb, rfl⟩ := List.mem_map.1 hc
  rw [runPassI_eq_loop] at hcb
  exact passLoop_pres p cap o (ValidEntry p)
    (fun c h => validEntry_preMark p p c h)
    (fun c res _ => validEntry_geoStep p (preMark p c) res)
    (loopInput p input s) 0 (validEntryP_loopInput p input s hin) cb hcb

theorem runPass_elig_false (p : Provider) (o : String → Option (ℚ × ℚ))
    (input s : List Clinic) :
    ∀ c ∈ (runPass p none o input s).1, elig p c = false := by
  intro c hc
  unfold runPass at hc
  obtain ⟨cb, hcb, rfl⟩ := List.mem_map.1 hc
  rw [runPassI_eq_loop] at hcb
  exact passLoop_post_uncapped p o (elig_geoStep_false p) (loopInput p input s) 0 cb hcb

theorem runPass_map_id (p : Provider) (cap : Option Nat) (o : String → Option (ℚ × ℚ))
    (input s : List Clinic) :
    (runPass p cap o input s).1.map (fun c => c.id) =
      (loopInput p input s).map (fun c => c.id) := by
  unfold runPass
  rw [runPassI_eq_loop, List.map_map]
  exact passLoop_map_id p cap o (loopInput p input s) 0

theorem runPass_length (p : Provider) (cap : Option Nat) (o : String → Option (ℚ × ℚ))
    (input s : List Clinic) :
    (runPass p cap o input s).1.length = (loopInput p input s).length := by
  unfold runPass
  rw [runPassI_eq_loop, List.length_map]
  exact passLoop_length p cap o (loopInput p input s) 0

theorem hasId_eq_of_map_id (s t : List Clinic)
    (h : s.map (fun c => c.id) = t.map (fun c => c.id)) (i : Int) :
    hasId s i = hasId t i := by
  unfold hasId
  have hs : ∀ u : List Clinic,
      u.any (fun c => decide (c.id = i)) = (u.map (fun c => c.id)).any (fun x => decide (x = i)) := by
    intro u
    induction u with
    | nil => rfl
    | cons a l ih => simp only [List.any_cons, List.map_cons, ih]
  rw [hs s, hs t, h]

theorem revalidate_map_id (p : Provider) (s : List Clinic) :
    (revalidate p s).map (fun c => c.id) = s.map (fun c => c.id) := by
  unfold revalidate
  rw [List.map_map]
  refine List.map_congr_left ?_
  intro c _
  exact id_revalOne p c

theorem hasId_loopInput (p : Provider) (input s : List Clinic) :
    ∀ c ∈ input, hasId (loopInput p input s) c.id = true := by
  intro c hc
  unfold loopInput
  by_cases hemp : s.isEmpty
  · rw [if_pos hemp]
    unfold hasId
    rw [List.any_eq_true]
    exact ⟨initClinic p c, List.mem_map_of_mem _ hc, by simp⟩
  · rw [if_neg hemp]
    rw [hasId_eq_of_map_id _ _ (revalidate_map_id p (mergeStep p input s)) c.id]
    exact hasId_merge_input p input s c hc

theorem mergeStep_length_ge (p : Provider) (input s : List Clinic) :
    s.length ≤ (mergeStep p input s).length := by
  unfold mergeStep
  induction input generalizing s with
  | nil => exact Nat.le_refl _
  | cons d t ih =>
    simp only [List.foldl_cons]
    split
    · exact ih s
    · refine Nat.le_trans ?_ (ih (s ++ [initClinic p d]))
      simp

/-- **C3.** For every provider pass: running the pass a second time with no
request cap, unchanged input, and the state produced by a completed uncapped
first run issues zero geocoding lookups and leaves the persisted state
identical to the first run's result (for any network behaviour `o2` of the
second run). -/
theorem claim_C3_pass_idempotent (p : Provider) (o1 o2 : String → Option (ℚ × ℚ))
    (input s0 : List Clinic) (hin : NormalizedInput input) :
    (runPass p none o2 input (runPass p none o1 input s0).1).1 =
      (runPass p none o1 input s0).1 ∧
    (runPass p none o2 input (runPass p none o1 input s0).1).2 = 0 := by
  have hs1 : (runPass p none o1 input s0).1 = (runPass p none o1 input s0).1 := rfl
  generalize hdef : (runPass p none o1 input s0).1 = s1 at *
  by_cases hemp : s1.isEmpty = true
  · -- the first run produced the empty state: both state and input are empty
    have hnil : s1 = [] := List.isEmpty_iff.1 hemp
    have hlen : s1.length = (loopInput p input s0).length := by
      rw [← hdef]; exact runPass_length p none o1 input s0
    have hli0 : (loopInput p input s0).length = 0 := by
      rw [← hlen, hnil]; rfl
    have hinput : input = [] := by
      unfold loopInput at hli0
      by_cases h0 : s0.isEmpty = true
      · rw [if_pos h0, List.length_map] at hli0
        exact List.length_eq_zero.1 hli0
      · rw [if_neg h0] at hli0
        unfold revalidate at hli0
        rw [List.length_map] at hli0
        have h1 := mergeStep_length_ge p input s0
        rw [hli0] at h1
        have h2 : s0.length = 0 := Nat.le_zero.1 h1
        exact absurd (List.isEmpty_iff.2 (List.length_eq_zero.1 h2)) h0
    subst hinput
    subst hnil
    exact ⟨rfl, rfl⟩
  · have h1 : ∀ c ∈ input, hasId s1 c.id = true := by
      intro c hc
      rw [← hdef, hasId_eq_of_map_id _ _ (runPass_map_id p none o1 input s0) c.id]
      exact hasId_loopInput p input s0 c hc
    have h2 : ∀ c ∈ s1, ValidEntry p c := by
      rw [← hdef]; exact runPass_validEntry p none o1 input s0 hin
    have h3 : ∀ c ∈ s1, elig p c = false := by
      rw [← hdef]; exact runPass_elig_false p o1 input s0
    have hli : loopInput p input s1 = s1 := by
      unfold loopInput
      rw [if_neg hemp, mergeStep_noop p input s1 h1, revalidate_of_validEntry p s1 h2]
    have run2 : runPassI p none o2 input s1 = (s1.map (fun c => (c, false)), 0) := by
      rw [runPassI_eq_loop, hli]
      exact passLoop_skipall p none o2 s1 0 h3
    constructor
    · unfold runPass
      rw [run2, List.map_map]
      have hid : (Prod.fst ∘ fun c : Clinic => (c, false)) = id := rfl
      rw [hid, List.map_id]
    · unfold runPass
      rw [run2]

/-- Witness for C3: the opencage pass over one normalized record, run twice
from an absent state file. -/
theorem claim_C3_pass_idempotent_witness :
    (runPass Provider.opencage none oracleC3 [clinicC3]
        (runPass Provider.opencage none oracleC3 [clinicC3] []).1).1 =
      (runPass Provider.opencage none oracleC3 [clinicC3] []).1 ∧
    (runPass Provider.opencage none oracleC3 [clinicC3]
        (runPass Provider.opencage none oracleC3 [clinicC3] []).1).2 = 0 :=
  claim_C3_pass_idempotent Provider.opencage oracleC3 oracleC3 [clinicC3] []
    (fun c hc => by
      rw [List.mem_singleton] at hc
      subst hc
      exact ⟨rfl, rfl, rfl⟩)

/-- **C2.** Evaluation at the failing input: a record whose locationiq entry
holds a valid coordinate pair and that google has never attempted.  The
claim (and the docstring of `should_geocode` in `2_3_geolocate_google.py`)
say a fallback pass must not look this record up, because its primary
attempt did not fail; but google's `should_geocode` accepts it and an
uncapped google pass issues one request for it, while opencage's
`should_geocode` correctly refuses it. -/
theorem claim_C2_google_eligibility_bug :
    clinicC2.locationiq = some [24.1, 54.3] ∧
    clinicC2.google = none ∧
    should_geocode_google clinicC2 = true ∧
    should_geocode_opencage clinicC2 = false ∧
    (runPass Provider.google none (fun _ => none) [] [clinicC2]).2 = 1 := by
  refine ⟨rfl, rfl, rfl, rfl, ?_⟩
  decide

theorem getAtt_initClinic_ne (p q : Provider) (hq : q ≠ Provider.locationiq) (c : Clinic) :
    getAtt q (initClinic p c) = getAtt q c := by
  cases p with
  | locationiq => exact getAtt_setAtt_ne Provider.locationiq q hq [] c
  | opencage =>
    show getAtt q (if c.locationiq.isNone then { c with locationiq := some [] } else c) = _
    split
    · exact getAtt_setAtt_ne Provider.locationiq q hq [] c
    · rfl
  | google =>
    show getAtt q (if c.locationiq.isNone then { c with locationiq := some [] } else c) = _
    split
    · exact getAtt_setAtt_ne Provider.locationiq q hq [] c
    · rfl

/-- **C7 counterexample.** A capped locationiq pass from an absent state file
over one normalized record: the record had no prior locationiq attempt entry
and the run issues zero geocoding lookups, yet the persisted state holds an
empty (attempted-and-failed) locationiq entry for it — the fresh-start
initialization marks every record's locationiq as attempted.  This refutes
the claim for the locationiq pass. -/
theorem claim_C7_counterexample :
    clinicC7.locationiq = none ∧
    (runPass Provider.locationiq (some 5) (fun _ => none) [clinicC7] []).2 = 0 ∧
    (runPass Provider.locationiq (some 5) (fun _ => none) [clinicC7] []).1 =
      [{ clinicC7 with locationiq := some [] }] := by
  refine ⟨rfl, ?_, ?_⟩ <;> decide

/-- **C7 (amended).** For the fallback passes (opencage and google) run with
a request cap, a record that had no prior attempt entry for that provider
and for which the run issued no geocoding lookup still has no attempt entry
for that provider in the persisted state after the run.  The locationiq pass
does not satisfy this: its fresh-start initialization and its merge step
write empty locationiq entries without issuing lookups, and the record at
which a capped run stops is marked with an empty entry before the cap
check. -/
theorem claim_C7_fallback_no_phantom_attempt (p : Provider)
    (hp : p ≠ Provider.locationiq) (cap : Nat) (o : String → Option (ℚ × ℚ))
    (input s0 : List Clinic) (hin : NormalizedInput input) :
    ∀ cb ∈ (runPassI p (some cap) o input s0).1, cb.2 = false →
      getAtt p cb.1 ≠ none → ∃ c ∈ s0, c.id = cb.1.id ∧ getAtt p c ≠ none := by
  intro cb hcb hflag hatt
  rw [runPassI_eq_loop] at hcb
  have hmem : cb.1 ∈ loopInput p input s0 :=
    passLoop_false_mem p (some cap) o (preMark_fallback p hp) (loopInput p input s0) 0 cb hcb hflag
  unfold loopInput at hmem
  by_cases hemp : s0.isEmpty = true
  · rw [if_pos hemp] at hmem
    obtain ⟨d, hd, heq⟩ := List.mem_map.1 hmem
    obtain ⟨h1, h2, h3⟩ := hin d hd
    refine absurd ?_ hatt
    rw [← heq, getAtt_initClinic_ne p p hp d]
    cases p with
    | locationiq => exact absurd rfl hp
    | opencage => exact h2
    | google => exact h3
  · rw [if_neg hemp] at hmem
    obtain ⟨d, hd, hdq⟩ := mem_revalidate p _ cb.1 hmem
    have hdne : getAtt p d ≠ none := by
      intro hnone
      rw [hdq, getAtt_revalOne_none p d hnone] at hatt
      exact hatt hnone
    rcases mem_mergeStep p input s0 d hd with hds | ⟨e, he, rfl⟩
    · exact ⟨d, hds, by rw [hdq, id_revalOne], hdne⟩
    · obtain ⟨h1, h2, h3⟩ := hin e he
      refine absurd ?_ hdne
      rw [getAtt_initClinic_ne p p hp e]
      cases p with
      | locationiq => exact absurd rfl hp
      | opencage => exact h2
      | google => exact h3

/-- Witness for the amended C7: a capped opencage pass over a state holding
one record whose opencage attempt already exists, with empty input; the
record is emitted unlooked-up with its entry intact, and the theorem traces
that entry back to the prior state. -/
theorem claim_C7_fallback_no_phantom_attempt_witness :
    ∃ c ∈ [clinicC7w], c.id = clinicC7w.id ∧ getAtt Provider.opencage c ≠ none := by
  have hmem : (clinicC7w, false) ∈
      (runPassI Provider.opencage (some 1) (fun _ => none) [] [clinicC7w]).1 := by
    have hrun : (runPassI Provider.opencage (some 1) (fun _ => none) [] [clinicC7w]).1 =
        [(clinicC7w, false)] := by decide
    rw [hrun]
    exact List.mem_singleton.2 rfl
  exact claim_C7_fallback_no_phantom_attempt Provider.opencage (by decide) 1 (fun _ => none)
    [] [clinicC7w] (fun c hc => by simp at hc)
    (clinicC7w, false) hmem rfl (by decide)

/-! ## Dataset-build claims (C8, C10) -/

theorem coordOf_pair (a b : ℚ) : coordOf (some [a, b]) = some (a, b) := rfl

theorem coordOf_eq_none (o : Option (List ℚ)) :
    coordOf o = none ↔ ∀ a b, o ≠ some [a, b] := by
  constructor
  · intro h a b hab
    rw [hab] at h
    exact Option.noConfusion h
  · intro h
    match o with
    | none => rfl
    | some [] => rfl
    | some [a] => rfl
    | some [a, b] => exact absurd rfl (h a b)
    | some (a :: b :: d :: t) => rfl

/-- **C10.** The dataset builder's fixed provider priority order is
locationiq first, then google, then opencage: for every record, it returns
the locationiq pair when that key holds a non-empty two-element list;
otherwise the google pair under the same condition; otherwise the opencage
pair; otherwise none (the record is dropped). -/
theorem claim_C10_provider_priority (r : Clinic) :
    (∀ a b, r.locationiq = some [a, b] → get_coordinates r = some (a, b)) ∧
    ((∀ a b, r.locationiq ≠ some [a, b]) →
      (∀ a b, r.google = some [a, b] → get_coordinates r = some (a, b)) ∧
      ((∀ a b, r.google ≠ some [a, b]) →
        (∀ a b, r.opencage = some [a, b] → get_coordinates r = some (a, b)) ∧
        ((∀ a b, r.opencage ≠ some [a, b]) →
          get_coordinates r = none ∧ process_record r = none))) := by
  constructor
  · intro a b h
    unfold get_coordinates
    rw [h, coordOf_pair]
  · intro hl
    have hl0 : coordOf r.locationiq = none := (coordOf_eq_none _).2 hl
    constructor
    · intro a b h
      unfold get_coordinates
      rw [hl0, h, coordOf_pair]
    · intro hg
      have hg0 : coordOf r.google = none := (coordOf_eq_none _).2 hg
      constructor
      · intro a b h
        unfold get_coordinates
        rw [hl0, hg0, h, coordOf_pair]
      · intro ho
        have ho0 : coordOf r.opencage = none := (coordOf_eq_none _).2 ho
        have hget : get_coordinates r = none := by
          unfold get_coordinates
          rw [hl0, hg0, ho0]
        refine ⟨hget, ?_⟩
        unfold process_record
        rw [hget]

/-- Witness for C10 at a concrete record holding only an opencage pair. -/
theorem claim_C10_provider_priority_witness :
    get_coordinates
      { id := 9, name := "W", address := "A", phone := "",
        opencage := some [23, 55] } = some (23, 55) :=
  ((claim_C10_provider_priority
      { id := 9, name := "W", address := "A", phone := "",
        opencage := some [23, 55] }).2
    (fun _ _ h => Option.noConfusion h)).2
    (fun _ _ h => Option.noConfusion h) |>.1 23 55 rfl

/-- **C8.** At dataset-build time, a record with `locationiq = []`,
`opencage = []`, `google = [24.1, 54.3]` produces an output record with the
google coordinates (lat 24.1, lon 54.3); and a record whose three provider
entries are all empty or absent produces no output record at all. -/
theorem claim_C8_dataset_build :
    (∀ (i : Int) (name address phone : String), ∃ out,
      process_record
          (mkClinic i name address phone (some []) (some []) (some [24.1, 54.3])) =
        some out ∧
      out.lat = 24.1 ∧ out.lon = 54.3) ∧
    (∀ (i : Int) (name address phone : String) (l o g : Option (List ℚ)),
      (l = none ∨ l = some []) → (o = none ∨ o = some []) → (g = none ∨ g = some []) →
      process_record (mkClinic i name address phone l o g) = none) := by
  constructor
  · intro i name address phone
    exact ⟨_, rfl, rfl, rfl⟩
  · intro i name address phone l o g hl ho hg
    rcases hl with rfl | rfl <;> rcases ho with rfl | rfl <;> rcases hg with rfl | rfl <;> rfl

/-- Witness for C8 at concrete field values. -/
theorem claim_C8_dataset_build_witness :
    (∃ out,
      process_record
          (mkClinic 0 "X Clinic" "A" "" (some []) (some []) (some [24.1, 54.3])) =
        some out ∧
      out.lat = 24.1 ∧ out.lon = 54.3) ∧
    process_record (mkClinic 0 "X Clinic" "A" "" none none none) = none :=
  ⟨claim_C8_dataset_build.1 0 "X Clinic" "A" "",
   claim_C8_dataset_build.2 0 "X Clinic" "A" "" none none none
     (Or.inl rfl) (Or.inl rfl) (Or.inl rfl)⟩

/-! ## Phone claims (C5, C6) -/

/-- **C5 counterexample.** The spec's third documented example fails on the
code: `normalizeOne("2223344")` with inferred area code `"4"` yields none,
not `"+971 42223344"` — the leading digit `2` claims the number (area code 2,
subscriber `"223344"`), whose 6-digit subscriber fails the length
validation; the inference fallback is never reached. -/
theorem claim_C5_counterexample :
    normalize_single_phone "2223344" (some '4') = Except.ok none ∧
    normalize_single_phone "2223344" (some '4') ≠
      Except.ok (some "+971 42223344") := by
  refine ⟨by decide, by decide⟩

/-- **C5 (amended).** The first two documented examples hold; the bare
7-digit `"2223344"` with inferred area code `"4"` yields none (the
leading-digit branch claims it and its subscriber fails length validation);
a bare 11-digit string and a malformed (digit-free) string yield none. -/
theorem claim_C5_phone_examples :
    normalize_single_phone "00 971 2 6435555" none = Except.ok (some "+971 26435555") ∧
    normalize_single_phone "04-2223333" none = Except.ok (some "+971 42223333") ∧
    normalize_single_phone "2223344" (some '4') = Except.ok none ∧
    normalize_single_phone "22345678901" none = Except.ok none ∧
    normalize_single_phone "phone" none = Except.ok none := by
  refine ⟨by decide, by decide, by decide, by decide, by decide⟩

theorem firstPass_append (l : List String) (a ps : List String) (inf : Option Char)
    (r : List String × List String × Option Char)
    (h : firstPass l a ps inf = Except.ok r) : ∃ t, r.1 = a ++ t := by
  induction l generalizing a ps inf with
  | nil =>
    simp only [firstPass] at h
    obtain rfl : (a, ps, inf) = r := by
      injection h
    exact ⟨[], by simp⟩
  | cons p rest ih =>
    simp only [firstPass] at h
    rcases hn : normalize_single_phone p none with e | v
    · rw [hn] at h; exact Except.noConfusion h
    · rw [hn] at h
      rcases v with _ | n
      · exact ih a ps inf h
      · obtain ⟨t, ht⟩ := ih (a ++ [n]) (ps ++ [p]) _ h
        exact ⟨[n] ++ t, by rw [ht, List.append_assoc]⟩

theorem firstPass_success_mem (l : List String) (a ps : List String) (inf : Option Char)
    (r : List String × List String × Option Char)
    (h : firstPass l a ps inf = Except.ok r) (p : String) (hp : p ∈ l) (n : String)
    (hn : normalize_single_phone p none = Except.ok (some n)) : n ∈ r.1 := by
  induction l generalizing a ps inf with
  | nil => simp at hp
  | cons q rest ih =>
    simp only [firstPass] at h
    rcases List.mem_cons.1 hp with rfl | hpr
    · rw [hn] at h
      obtain ⟨t, ht⟩ := firstPass_append rest (a ++ [n]) (ps ++ [p]) _ r h
      rw [ht]
      simp
    · rcases hq : normalize_single_phone q none with e | v
      · rw [hq] at h; exact Except.noConfusion h
      · rw [hq] at h
        rcases v with _ | m
        · exact ih a ps inf h hpr
        · exact ih (a ++ [m]) (ps ++ [q]) _ h hpr

theorem firstPass_no_error (l : List String) (a ps : List String) (inf : Option Char)
    (r : List String × List String × Option Char)
    (h : firstPass l a ps inf = Except.ok r) (p : String) (hp : p ∈ l) :
    ∃ v, normalize_single_phone p none = Except.ok v := by
  induction l generalizing a ps inf with
  | nil => simp at hp
  | cons q rest ih =>
    simp only [firstPass] at h
    rcases hq : normalize_single_phone q none with e | v
    · rw [hq] at h; exact Except.noConfusion h
    · rw [hq] at h
      rcases List.mem_cons.1 hp with rfl | hpr
      · exact ⟨v, hq⟩
      · rcases v with _ | m
        · exact ih a ps inf h hpr
        · exact ih (a ++ [m]) (ps ++ [q]) _ h hpr

theorem firstPass_all_none (l : List String) (a ps : List String) (inf : Option Char)
    (h : ∀ p ∈ l, normalize_single_phone p none = Except.ok none) :
    firstPass l a ps inf = Except.ok (a, ps, inf) := by
  induction l with
  | nil => rfl
  | cons p rest ih =>
    simp only [firstPass]
    rw [h p (List.mem_cons_self p rest)]
    exact ih (fun q hq => h q (List.mem_cons_of_mem p hq))

theorem secondPass_append (inf : Char) (l : List String) (a ps : List String)
    (r : List String) (h : secondPass inf l a ps = Except.ok r) :
    ∃ t, r = a ++ t ∧ t.Nodup ∧ ∀ x ∈ t, x ∉ a := by
  induction l generalizing a ps with
  | nil =>
    simp only [secondPass] at h
    obtain rfl : a = r := by injection h
    exact ⟨[], by simp⟩
  | cons p rest ih =>
    simp only [secondPass] at h
    by_cases hps : p ∈ ps
    · rw [if_pos hps] at h
      exact ih a ps h
    · rw [if_neg hps] at h
      rcases hn : normalize_single_phone p (some inf) with e | v
      · rw [hn] at h; exact Except.noConfusion h
      · rw [hn] at h
        rcases v with _ | n
        · exact ih a ps h
        · dsimp only at h
          by_cases hmem : n ∈ a
          · rw [if_neg (fun hc => hc hmem)] at h
            exact ih a ps h
          · rw [if_pos hmem] at h
            obtain ⟨t, ht, hnd, hnotin⟩ := ih (a ++ [n]) (ps ++ [p]) h
            refine ⟨n :: t, by rw [ht, List.append_assoc]; rfl, ?_, ?_⟩
            · refine List.nodup_cons.2 ⟨?_, hnd⟩
              intro hnt
              exact hnotin n hnt (by simp)
            · intro x hx
              rcases List.mem_cons.1 hx with rfl | hxt
              · exact hmem
              · intro hxa
                exact hnotin x hxt (List.mem_append_left [n] hxa)

/-- **C6 counterexample.** A field listing the same number twice: both
candidates normalize successfully in the first pass, which performs no
duplicate check, so the canonical number appears twice in the output —
refuting the claim that the result is deduplicated. -/
theorem claim_C6_counterexample :
    normalize_phone "021234567/021234567" =
      Except.ok "+971 21234567, +971 21234567" ∧
    phoneListOf "021234567/021234567" =
      Except.ok ["+971 21234567", "+971 21234567"] := by
  refine ⟨by decide, by decide⟩

/-- **C6 (amended).** For every raw phone field on which normalization does
not raise (the bare digit string `"971"` raises an IndexError), the result
is the comma-joined list consisting of the first-pass results in order —
*not* deduplicated — followed by the second-pass results, each of which is
distinct from every other output number; it is the empty string exactly when
no candidate normalizes in the first pass. -/
theorem claim_C6_field_normalization (f : String) (ns : List String)
    (h : phoneListOf f = Except.ok ns) :
    normalize_phone f = Except.ok (if ns.isEmpty then "" else String.intercalate ", " ns) ∧
    (∃ n1 ps inf, firstPass (splitPhones f) [] [] none = Except.ok (n1, ps, inf) ∧
      ∃ n2, ns = n1 ++ n2 ∧ n2.Nodup ∧ ∀ x ∈ n2, x ∉ n1) ∧
    (ns = [] ↔ ∀ p ∈ splitPhones f, normalize_single_phone p none = Except.ok none) := by
  have hfp : ∃ n1 ps inf, firstPass (splitPhones f) [] [] none = Except.ok (n1, ps, inf) := by
    unfold phoneListOf at h
    rcases hf : firstPass (splitPhones f) [] [] none with e | r
    · rw [hf] at h; exact Except.noConfusion h
    · obtain ⟨m1, ps1, inf1⟩ := r
      exact ⟨m1, ps1, inf1, rfl⟩
  obtain ⟨n1, ps, inf, hf⟩ := hfp
  have hsplit : ∃ n2, ns = n1 ++ n2 ∧ n2.Nodup ∧ ∀ x ∈ n2, x ∉ n1 := by
    unfold phoneListOf at h
    rw [hf] at h
    rcases inf with _ | a
    · obtain rfl : n1 = ns := by injection h
      exact ⟨[], by simp⟩
    · obtain ⟨t, ht, hnd, hni⟩ := secondPass_append a (splitPhones f) n1 ps ns h
      exact ⟨t, ht, hnd, hni⟩
  refine ⟨?_, ⟨n1, ps, inf, hf, hsplit⟩, ?_⟩
  · unfold normalize_phone
    by_cases hf0 : f = ""
    · subst hf0
      have : phoneListOf "" = Except.ok [] := by decide
      rw [this] at h
      obtain rfl : ([] : List String) = ns := by injection h
      rfl
    · rw [if_neg hf0, h]
  · constructor
    · intro hnil
      intro p hp
      obtain ⟨n2, hsum, _, _⟩ := hsplit
      rw [hnil] at hsum
      have hn1 : n1 = [] := by
        rcases List.append_eq_nil.1 hsum.symm with ⟨h1, _⟩
        exact h1
      obtain ⟨v, hv⟩ := firstPass_no_error (splitPhones f) [] [] none _ hf p hp
      rcases v with _ | n
      · exact hv
      · have : n ∈ n1 := firstPass_success_mem (splitPhones f) [] [] none _ hf p hp n hv
        rw [hn1] at this
        simp at this
    · intro hall
      have hf2 : firstPass (splitPhones f) [] [] none =
          Except.ok ([], [], (none : Option Char)) := firstPass_all_none _ [] [] none hall
      rw [hf2] at hf
      obtain ⟨h1, h2, h3⟩ : ([] : List String) = n1 ∧ ([] : List String) = ps ∧
          (none : Option Char) = inf := by
        refine ⟨?_, ?_, ?_⟩ <;> injection hf with hv <;> cases hv <;> rfl
      obtain ⟨n2, hsum, _, _⟩ := hsplit
      unfold phoneListOf at h
      rw [hf2] at h
      obtain rfl : ([] : List String) = ns := by injection h
      rfl

/-- Witness for the amended C6 at a concrete field whose second candidate is
resolved by the inference pass. -/
theorem claim_C6_field_normalization_witness :
    normalize_phone "02 6435555/6435556" =
      Except.ok (if (["+971 26435555", "+971 26435556"] : List String).isEmpty then ""
        else String.intercalate ", " ["+971 26435555", "+971 26435556"]) ∧
    (∃ n1 ps inf, firstPass (splitPhones "02 6435555/6435556") [] [] none =
        Except.ok (n1, ps, inf) ∧
      ∃ n2, ["+971 26435555", "+971 26435556"] = n1 ++ n2 ∧ n2.Nodup ∧ ∀ x ∈ n2, x ∉ n1) ∧
    ((["+971 26435555", "+971 26435556"] : List String) = [] ↔
      ∀ p ∈ splitPhones "02 6435555/6435556",
        normalize_single_phone p none = Except.ok none) :=
  claim_C6_field_normalization "02 6435555/6435556"
    ["+971 26435555", "+971 26435556"] (by decide)

/-! ## Text-cleaning claim (C4) -/

/-- **C4.** Evaluation at the failing input: `clean` is not idempotent.
`clean("-,")` removes the trailing comma (rule `[,\s]+$`) *after* the
trailing-dash rule (`\s*-\s*$`) has already run, leaving `"-"` — a string
with trailing punctuation, contradicting the function's own docstring and
§4.1 step 5 of the spec; a second application then removes the exposed
dash, giving `""`. -/
theorem claim_C4_clean_not_idempotent :
    clean_text "-," = "-" ∧ clean_text (clean_text "-,") = "" ∧
    clean_text (clean_text "-,") ≠ clean_text "-," := by
  refine ⟨by decide, by decide, by decide⟩

/-! ## Address-locality claim (C9) -/

/-- **C9 counterexample.** For the address `"Dubai - Dubai"` (which contains
`"- Dubai"`), the result is `"Dubai, Dubai, UAE"`: the trailing suffix is
canonical, but the locality name appears twice, refuting the claim that it
appears exactly once for every address containing `"- Dubai"` — the removal
regexes require a comma, space, or dash *before* the emirate, so the leading
`"Dubai"` survives and the suffix adds a second mention. -/
theorem claim_C9_counterexample :
    add_emirate_to_address "Dubai - Dubai" "X" = "Dubai, Dubai, UAE" ∧
    countSubstr "Dubai" (add_emirate_to_address "Dubai - Dubai" "X") = 2 := by
  refine ⟨by decide, by decide⟩

/-- **C9 (amended).** `addLocality("Al Wahda Mall Area", "ABC Clinic (Abu
Dhabi)")` yields `"Al Wahda Mall Area, Abu Dhabi, UAE"` (ending in
`", Abu Dhabi, UAE"`); and an address containing `"- Dubai"` as its only
mention of the locality has that mention stripped and replaced by the
canonical `", Dubai, UAE"` suffix with the locality appearing exactly once
(e.g. `"Deira - Dubai"` becomes `"Deira, Dubai, UAE"`), while an address
with further mentions can repeat the locality. -/
theorem claim_C9_addLocality_examples :
    add_emirate_to_address "Al Wahda Mall Area" "ABC Clinic (Abu Dhabi)" =
      "Al Wahda Mall Area, Abu Dhabi, UAE" ∧
    add_emirate_to_address "Deira - Dubai" "X" = "Deira, Dubai, UAE" ∧
    countSubstr "Dubai" (add_emirate_to_address "Deira - Dubai" "X") = 1 ∧
    countSubstr "- Dubai" (add_emirate_to_address "Deira - Dubai" "X") = 0 := by
  refine ⟨by decide, by decide, by decide, by decide⟩
